import Mathlib

/-!
Verification of the OpenMDAO n2-viewer layout core against its specification.

The development shallowly embeds two source files:
 * `gen/Dimensions.js` — the `Dimensions` snapshot class;
 * `src/OmLayout.js`   — the solver-tree layout pass (`OmLayout`).

JavaScript numbers are modelled as exact rationals (`ℚ`); every site where the
source divides records, in addition, whether the denominator was zero (in
IEEE arithmetic such a division yields `NaN`/`Infinity` instead of a finite
value).  JavaScript plain objects with numeric values are modelled as
association lists from strings to rationals.  Fallible operations (JS code
that throws) return `Except`/`Option`.
-/

namespace OmView

/-- A JavaScript plain object holding numeric properties, as an association
list; the first binding of a key is its value. -/
def JsObj : Type := List (String × ℚ)

instance : DecidableEq JsObj := by unfold JsObj; infer_instance

/-- Property lookup `obj[k]`; absent keys read as 0 here (claims only ever
read keys that are present). -/
def objGet (o : JsObj) (k : String) : ℚ :=
  (((o.find? (fun p => p.1 == k)).map (fun p => p.2)).getD 0)

/-- The JS `k in obj` test. -/
def objHas (o : JsObj) (k : String) : Bool :=
  (o.find? (fun p => p.1 == k)).isSome

/-- Property write `obj[k] = v`: a fresh binding shadowing any older one. -/
def objSet (o : JsObj) (k : String) (v : ℚ) : JsObj :=
  ((k, v) :: o : List (String × ℚ))

/-- Option-valued lookup used to state "the key is present with value v". -/
def objLookup (o : JsObj) (k : String) : Option ℚ :=
  ((o.find? (fun p => p.1 == k)).map (fun p => p.2))

/-! ## Dimensions (gen/Dimensions.js) -/

/-- The `Dimensions` class.  `fields` holds the numeric own-properties the
instance carries (managed ones, plus possibly stale ones left over from an
earlier initialisation, exactly as in JS where `this[prop] = v` leaves the
property on the object); `managedProps` is `this._managedProps` in insertion
order; `prev` is the plain object `this.prev`. -/
structure Dimensions where
  unit : String
  managedProps : List String
  fields : JsObj
  prev : JsObj
deriving DecidableEq

/-- Source `Dimensions.allowedProps`. -/
def allowedProps : List String :=
  ["x", "y", "z", "height", "width", "margin", "top", "right", "bottom", "left"]

/-- The loop body of `initFrom`, iterating over the remaining allowed
property names. -/
def initFromProps (obj : JsObj) (initPrev : Bool) : List String → Dimensions → Dimensions
  | [], d => d
  | p :: ps, d =>
      initFromProps obj initPrev ps
        (if objHas obj p then
          { d with
            managedProps := d.managedProps ++ [p]
            fields := objSet d.fields p (objGet obj p)
            prev := if initPrev then objSet d.prev p 0 else d.prev }
        else d)

/-- Source `Dimensions.initFrom(obj, unit, initPrev)`: reset `unit` and
`_managedProps`, recreate `prev` when `initPrev`, then copy every allowed
property present on `obj`. -/
def Dimensions.initFrom (self : Dimensions) (obj : JsObj) (unit : String)
    (initPrev : Bool) : Dimensions :=
  initFromProps obj initPrev allowedProps
    { self with
      unit := unit
      managedProps := []
      prev := if initPrev then ([] : List (String × ℚ)) else self.prev }

/-- The fresh `Dimensions` produced by `new Dimensions(obj, unit)`. -/
def Dimensions.new (obj : JsObj) (unit : String) : Dimensions :=
  Dimensions.initFrom ⟨"px", [], [], []⟩ obj unit true

/-- The numeric own-properties of a `Dimensions` instance when it is itself
used as the source object of `initFrom` (the `prop in obj` test consults
them). -/
def Dimensions.toObj (d : Dimensions) : JsObj := d.fields

/-- JS `for (const k of obj)` over a plain object: plain objects carry no
`Symbol.iterator`, so the statement throws a `TypeError` before any
iteration happens. -/
def forOfPlainObject (_o : JsObj) : Except String (List String) :=
  .error "TypeError: object is not iterable"

/-- Source `Dimensions.copyFrom(other)` transcribed faithfully: re-initialise
from `other` without touching `prev`, replace `prev` by `{}`, then iterate
`for (const prop of other.prev)` — which throws, because `other.prev` is a
plain object. -/
def Dimensions.copyFrom (self other : Dimensions) : Except String Dimensions :=
  let s1 := Dimensions.initFrom self other.toObj other.unit false
  let s2 := { s1 with prev := ([] : List (String × ℚ)) }
  match forOfPlainObject other.prev with
  | .error e => .error e
  | .ok props => .ok { s2 with prev := props.map (fun p => (p, objGet other.prev p)) }

/-- Source `Dimensions.preserve()`: replace `prev` with a fresh object binding each
currently managed property to its current value (`for...of` over the
`Set _managedProps` is fine — Sets are iterable). -/
def Dimensions.preserve (d : Dimensions) : Dimensions :=
  { d with prev := d.managedProps.map (fun p => (p, objGet d.fields p)) }

/-! ## OmLayout: scales and transit coordinates (src/OmLayout.js) -/

/-- A normalized or pixel rectangle: the four coordinate fields this core
writes into a node's `draw.dims` / `draw.solverDims`. -/
structure Rect where
  x : ℚ
  y : ℚ
  width : ℚ
  height : ℚ
deriving DecidableEq

/-- The solver-tree scale state written by `updateScaleValues()`: the two
transit coordinates and the domain/range pairs of the x and y linear
scalers. -/
structure SolverScales where
  transitX : ℚ
  transitY : ℚ
  scaleXDomain : ℚ × ℚ
  scaleXRange : ℚ × ℚ
  scaleYDomain : ℚ × ℚ
  scaleYRange : ℚ × ℚ
deriving DecidableEq

/-- Source `OmLayout.updateScaleValues()` (the solver-tree part, after the `super`
call), transcribed from the source.  `elemDims` is
`this.zoomedElement.draw.solverDims`; JS truthiness of `elemDims.x` on a
number is `elemDims.x ≠ 0`. -/
def updateScaleValues (elemDims : Rect) (treeWidth treeHeight parentNodeWidth : ℚ) :
    SolverScales :=
  { transitX := (if elemDims.x ≠ 0 then treeWidth - parentNodeWidth else treeWidth)
      / (1 - elemDims.x)
  , transitY := treeHeight / elemDims.height
  , scaleXDomain := (elemDims.x, 1)
  , scaleXRange := ((if elemDims.x ≠ 0 then parentNodeWidth else 0), treeWidth)
  , scaleYDomain := (elemDims.y, elemDims.y + elemDims.height)
  , scaleYRange := (0, treeHeight) }

/-- The same state as claim C6 words it: the x transit coordinate is the
tree pixel width, less the reserved parent-node width when the focus has a
nonzero x offset, divided by one minus the focus x; the y transit
coordinate is tree height over focus height; the x scaler maps
[focus.x, 1] onto [reserved-width-or-0, tree width]; the y scaler maps
[focus.y, focus.y + focus.height] onto [0, tree height]. -/
def updateScaleValuesSpec (elemDims : Rect) (treeWidth treeHeight parentNodeWidth : ℚ) :
    SolverScales :=
  { transitX := (treeWidth - (if elemDims.x = 0 then 0 else parentNodeWidth))
      / (1 - elemDims.x)
  , transitY := treeHeight / elemDims.height
  , scaleXDomain := (elemDims.x, 1)
  , scaleXRange := ((if elemDims.x = 0 then 0 else parentNodeWidth), treeWidth)
  , scaleYDomain := (elemDims.y, elemDims.y + elemDims.height)
  , scaleYRange := (0, treeHeight) }

/-- The denominators `updateScaleValues` divides by, with no special-casing
in the source: `1 - elemDims.x` and `elemDims.height`.  When either is zero
the IEEE result is `NaN`/`Infinity`, not a finite value. -/
def updateScaleValuesDividesByZero (elemDims : Rect) : Bool :=
  decide (1 - elemDims.x = 0) || decide (elemDims.height = 0)

/-! ## OmLayout: solver column widths (`_computeSolverColumnWidths`) -/

/-- One depth column: required pixel width and cumulative x location. -/
structure Col where
  width : ℚ
  location : ℚ
deriving DecidableEq

/-- Column read `cols[i]` — reads past the populated range yield a zero column (claims
only read populated indices). -/
def colAt (cs : List Col) (i : ℕ) : Col := cs.getD i ⟨0, 0⟩

/-- Indices `lo, lo+1, …, lo+k−1`. -/
def idxRange (lo k : ℕ) : List ℕ := (List.range k).map (fun j => lo + j)

/-- One iteration of the shortfall loop: `sum += cols[i].width;
lastColumnWidth = max(leafW[i] - sum, lastColumnWidth)`. -/
def shortfallStep (cols : List Col) (leafW : List ℚ) (acc : ℚ × ℚ) (i : ℕ) : ℚ × ℚ :=
  let sum := acc.1 + (colAt cols i).width
  (sum, max (leafW.getD i 0 - sum) acc.2)

/-- The loop `for (let i = leafW.length - 1; i >= zoomedDepth; --i)` of
`_computeSolverColumnWidths`, returning the final `lastColumnWidth`. -/
def shortfallLoop (cols : List Col) (leafW : List ℚ) (zoomedDepth : ℕ) : ℚ :=
  (((idxRange zoomedDepth (leafW.length - zoomedDepth)).reverse).foldl
    (shortfallStep cols leafW) (0, 0)).2

/-- Running sum of column widths from depth `i` up to depth `n − 1` (the
deepest level). -/
def suffixW (cols : List Col) (n i : ℕ) : ℚ :=
  ((idxRange i (n - i)).map (fun j => (colAt cols j).width)).sum

/-- The spec-side quantity of claim C7: the largest shortfall, over the
depths from the focus depth to the deepest level, between that depth's
per-leaf width requirement and the running sum of column widths from the
deepest level down to it, clamped to at least 0. -/
def largestShortfall (cols : List Col) (leafW : List ℚ) (zoomedDepth : ℕ) : ℚ :=
  ((idxRange zoomedDepth (leafW.length - zoomedDepth)).map
    (fun i => leafW.getD i 0 - suffixW cols leafW.length i)).foldl max 0

/-- Column write `solverCols[i].width = w` (index in range; the claim's theorem supplies
the bounds). -/
def setColWidth (cs : List Col) (i : ℕ) (w : ℚ) : List Col :=
  cs.set i { colAt cs i with width := w }

/-- The adjustment phase of `OmLayout._computeSolverColumnWidths` after the
`_setColumnWidthsFromWidestText` walk: the shortfall loop followed by the
two width assignments.  `cols` and `leafW` are the column array and the
per-leaf width array as the walk left them, `greatestDepth` the deepest
depth the walk recorded.  When the zoomed element is the root
(`depth = 0`), `solverCols[-1]` is `undefined` in JS and the `.width`
assignment throws, hence `none`. -/
def computeSolverColumnWidthsFinish (cols : List Col) (leafW : List ℚ)
    (greatestDepth zoomedDepth : ℕ) (parentNodeWidth : ℚ) : Option (List Col) :=
  if zoomedDepth = 0 then
    none
  else
    let lastColumnWidth := shortfallLoop cols leafW zoomedDepth
    let cols1 := setColWidth cols (zoomedDepth - 1) parentNodeWidth
    some (setColWidth cols1 greatestDepth lastColumnWidth)

/-! ## OmLayout: `_init` and `preservePreviousScaleValues` (claim C10) -/

/-- One linear scaler: a domain interval mapped onto a range interval. -/
structure ScaleAxis where
  dom : ℚ × ℚ
  rng : ℚ × ℚ
deriving DecidableEq

/-- Modelled from the spec: the `Scale` class (constructed in `_init` as
`new Scale(this.size.solverTree)`) is not under src/; per the spec it is a
pair of linear scalers carrying its own previous-value preservation,
structurally analogous to `Dimensions`. -/
structure Scale where
  x : ScaleAxis
  y : ScaleAxis
  prevx : ScaleAxis
  prevy : ScaleAxis
deriving DecidableEq

/-- Modelled from the spec: `Scale.preserve()` copies the current scaler
pair into the previous-value slots. -/
def Scale.preserve (s : Scale) : Scale := { s with prevx := s.x, prevy := s.y }

/-- The members of an `OmLayout` that claim C10 is about.  `none` models a
JS member that was never assigned (reading it gives `undefined`). -/
structure OmLayoutState where
  showSolvers : Bool
  scalesSolver : Option Scale
  transitCoordsSolver : Option Dimensions
deriving DecidableEq

/-- Source `OmLayout._init` restricted to the members above, transcribed from the
source: `this.scales.solver = new Scale(...)` happens only inside
`if (this.showSolvers)`, while `this.transitCoords.solver = new
Dimensions({x: 0, y: 0})` is unconditional.  `solverScale` stands for the
freshly constructed `Scale`. -/
def omLayoutInit (showSolvers : Bool) (solverScale : Scale) : OmLayoutState :=
  { showSolvers := showSolvers
  , scalesSolver := if showSolvers then some solverScale else none
  , transitCoordsSolver := some (Dimensions.new [("x", 0), ("y", 0)] "px") }

/-- Source `OmLayout.preservePreviousScaleValues`, transcribed faithfully.
The `super` call preserves the primary-tree scale state, which always
exists (modelled from the spec, base `Layout` not under src/).  Then
`this.transitCoords.solver.preserve()` and `this.scales.solver.preserve()`
each throw a `TypeError` when the member is `undefined`, hence `none`. -/
def preservePreviousScaleValues (st : OmLayoutState) : Option OmLayoutState :=
  match st.transitCoordsSolver with
  | none => none
  | some t =>
    match st.scalesSolver with
    | none => none
    | some s =>
      some { st with
        transitCoordsSolver := some t.preserve
        scalesSolver := some s.preserve }

/-! ## OmLayout: the solver geometry walk (`_computeSolverNormalizedPositions`)

The walk consumes an externally built model tree.  Per-node data that the
source reads from collaborators (`OmTreeNode` methods and `draw` flags not
defined under src/) appears as node attributes: `isOm` is the
`instanceof OmTreeNode` test, `isInput`/`isInputOrOutput`/`isVisible`/
`isVisibleLeaf` are the node's visibility predicates, `subsystemChildren`
is the truthiness of `node.subsystem_children`, `numLeaves` is
`node.draw.numLeaves`, and `filterParent`/`parentComponent` are summarised
references (id, depth, leaf count) to the respective nodes.  The mutable
per-node `draw` rectangles live in id-keyed stores threaded through the
walk. -/

/-- A reference to another tree node, carrying the attributes the walk
reads from it directly (its mutable rectangle is looked up by `id`). -/
structure NodeRef where
  id : ℕ
  depth : ℕ
  numLeaves : ℚ
deriving DecidableEq

/-- Static per-node data (see the section comment). -/
structure NodeAttrs where
  id : ℕ
  depth : ℕ
  type : String
  isOm : Bool
  isInput : Bool
  isInputOrOutput : Bool
  isVisible : Bool
  isVisibleLeaf : Bool
  minimized : Bool
  filtered : Bool
  filterParent : Option NodeRef
  subsystemChildren : Bool
  numLeaves : ℚ
  parentComponent : Option NodeRef
deriving DecidableEq

/-- A model tree node. -/
inductive OmNode where
  | mk (attrs : NodeAttrs) (children : List OmNode)

def OmNode.attrs : OmNode → NodeAttrs
  | .mk a _ => a

def OmNode.children : OmNode → List OmNode
  | .mk _ cs => cs

/-- The summarised reference a node passes as an anchor for itself. -/
def NodeAttrs.ref (a : NodeAttrs) : NodeRef := ⟨a.id, a.depth, a.numLeaves⟩

/-- An id-keyed store of rectangles (one `draw` snapshot per node); the
first binding of an id is current. -/
def Store : Type := List (ℕ × Rect)

instance : DecidableEq Store := by unfold Store; infer_instance

def storeSet (s : Store) (i : ℕ) (r : Rect) : Store :=
  ((i, r) :: s : List (ℕ × Rect))

def storeGet (s : Store) (i : ℕ) : Option Rect :=
  ((s.find? (fun p => p.1 == i)).map (fun p => p.2))

/-- Reading a field off a rectangle that was never assigned: defaulted to a
zero rectangle (claims only exercise assigned entries). -/
def rectAt (s : Store) (i : ℕ) : Rect := (storeGet s i).getD ⟨0, 0, 0, 0⟩

/-- The fixed pixel sizes `this.size.*` the walk reads. -/
structure Sizes where
  partitionTreeWidth : ℚ
  solverTreeWidth : ℚ
  solverTreeHeight : ℚ
  parentNodeWidth : ℚ
deriving DecidableEq

/-- The per-layout inputs of the walk: the zoomed element's id, sizes, the
primary (`this.cols`) and solver (`this.solverCols`) column tables, and
`this.model.root.draw.numLeaves`. -/
structure LayoutCtx where
  zoomedId : ℕ
  sz : Sizes
  cols : List Col
  solverCols : List Col
  totalLeaves : ℚ
deriving DecidableEq

/-- Mutable layout state threaded through the walk: the two node lists the
walk appends to, the per-node rectangle stores (`draw.dims` is only read),
and a flag recording whether any executed division had a zero denominator
(in IEEE arithmetic such a division yields `NaN`/`Infinity`). -/
structure WalkState where
  zoomedSolverNodes : List ℕ
  visibleSolverNodes : List ℕ
  dims : Store
  solverDims : Store
  prevDims : Store
  prevSolverDims : Store
  divZero : Bool
deriving DecidableEq

/-- The list pushes of the block guarded by
`earliestMinimizedParent == null && isChildOfZoomed` (`inGuard`): a
subsystem/root node joins `zoomedSolverNodes`; a visible leaf that is not
an input joins `visibleSolverNodes`. -/
def anchorLists (a : NodeAttrs) (inGuard : Bool) (st : WalkState) : WalkState :=
  let st1 := if inGuard && (a.type == "subsystem" || a.type == "root")
    then { st with zoomedSolverNodes := st.zoomedSolverNodes ++ [a.id] } else st
  if inGuard && a.isVisibleLeaf && !a.isInput
    then { st1 with visibleSolverNodes := st1.visibleSolverNodes ++ [a.id] } else st1

/-- The anchor update of the same block: inside the guard, a visible leaf
anchors itself, a filtered node anchors its `filterParent`, anything else
keeps the inherited anchor. -/
def anchorOut (a : NodeAttrs) (inGuard : Bool) (emp : Option NodeRef) : Option NodeRef :=
  if inGuard then
    (if a.isVisibleLeaf then some a.ref
      else if a.filtered then a.filterParent
      else emp)
  else emp

/-- The bookkeeping block guarded by
`earliestMinimizedParent == null && isChildOfZoomed`: push onto
`zoomedSolverNodes` / `visibleSolverNodes` and update the anchor. -/
def anchorStage (a : NodeAttrs) (icz : Bool) (emp : Option NodeRef)
    (st : WalkState) : WalkState × Option NodeRef :=
  (anchorLists a (emp == none && icz) st, anchorOut a (emp == none && icz) emp)

/-- Modelled from the spec: `node.preserveDims(true, leafCounter)` (an
`OmTreeNode` method, not under src/) snapshots the node's current `dims`
and `solverDims` into their previous-value slots before new values are
written; it does not touch the current fields. -/
def preserveDimsStage (a : NodeAttrs) (st : WalkState) : WalkState :=
  { st with
    prevDims := storeSet st.prevDims a.id (rectAt st.dims a.id)
    prevSolverDims := storeSet st.prevSolverDims a.id (rectAt st.solverDims a.id) }

/-- The degenerate rectangle assigned to a node that is not visible ("input
or hidden leaf leaving"): pinned at the parent component's primary-tree
position, with `1e-6` width and height. -/
def epsRect (ctx : LayoutCtx) (dims : Store) (a : NodeAttrs) : Rect :=
  let pc := a.parentComponent.getD ⟨0, 0, 0⟩
  { x := (colAt ctx.cols (pc.depth + 1)).location / ctx.sz.partitionTreeWidth
  , y := (rectAt dims pc.id).y
  , width := 1 / 1000000
  , height := 1 / 1000000 }

/-- The rectangle assigned to a visible node: the anchor (`workNode`)
column drives x/width and the leaf counter drives y/height.  `anchorX`
reads `workNode.draw.solverDims.x`, which is the value being assigned when
the work node is the node itself (in the source `dims.x` was just written
on the same object). -/
def visRect (ctx : LayoutCtx) (a : NodeAttrs) (leafCounter : ℚ)
    (workNode : NodeRef) (solverDims : Store) : Rect :=
  let x := (colAt ctx.solverCols workNode.depth).location / ctx.sz.solverTreeWidth
  let anchorX := if workNode.id == a.id then x else (rectAt solverDims workNode.id).x
  { x := x
  , y := leafCounter / ctx.totalLeaves
  , width :=
      if a.subsystemChildren && !a.minimized
      then (colAt ctx.solverCols workNode.depth).width / ctx.sz.solverTreeWidth
      else 1 - anchorX
  , height := workNode.numLeaves / ctx.totalLeaves }

/-- The rectangle `_computeSolverNormalizedPositions` writes into
`node.draw.solverDims`. -/
def assignRect (ctx : LayoutCtx) (a : NodeAttrs) (leafCounter : ℚ)
    (workNode : NodeRef) (st : WalkState) : Rect :=
  if !a.isVisible then epsRect ctx st.dims a
  else visRect ctx a leafCounter workNode st.solverDims

/-- Whether the geometry assignment for this node executes a division whose
denominator is zero (the source has no special-casing; in IEEE arithmetic
the stored coordinate is then `NaN`/`Infinity`). -/
def assignDivZero (ctx : LayoutCtx) (a : NodeAttrs) : Bool :=
  if !a.isVisible then decide (ctx.sz.partitionTreeWidth = 0)
  else decide (ctx.sz.solverTreeWidth = 0) || decide (ctx.totalLeaves = 0)

/-- The geometry assignment of the walk, transcribed from the source. -/
def assignStage (ctx : LayoutCtx) (a : NodeAttrs) (leafCounter : ℚ)
    (workNode : NodeRef) (st : WalkState) : WalkState :=
  { st with
    solverDims := storeSet st.solverDims a.id (assignRect ctx a leafCounter workNode st)
    divZero := st.divZero || assignDivZero ctx a }

mutual
/-- Source `OmLayout._computeSolverNormalizedPositions(node, leafCounter,
isChildOfZoomed, earliestMinimizedParent)`, transcribed from the source:
the `instanceof` guard, the zoomed-subtree test, the anchor bookkeeping,
`preserveDims`, the geometry assignment, then the recursion over
children. -/
def walk (ctx : LayoutCtx) (n : OmNode) (leafCounter : ℚ) (icz : Bool)
    (emp : Option NodeRef) (st : WalkState) : WalkState :=
  match n with
  | .mk a cs =>
    if !a.isOm then st
    else
      let icz2 := icz || (a.id == ctx.zoomedId)
      let p := anchorStage a icz2 emp st
      let st2 := preserveDimsStage a p.1
      let workNode := p.2.getD a.ref
      let st3 := assignStage ctx a leafCounter workNode st2
      walkChildren ctx cs leafCounter icz2 p.2 st3

/-- The children loop: skip minimized input/output children; pass the
child's own `filterParent` as anchor when it has one; advance the leaf
counter by the child's leaf count only while no anchor is set. -/
def walkChildren (ctx : LayoutCtx) (cs : List OmNode) (leafCounter : ℚ)
    (icz : Bool) (emp : Option NodeRef) (st : WalkState) : WalkState :=
  match cs with
  | [] => st
  | c :: rest =>
    if !(c.attrs.isInputOrOutput && c.attrs.minimized) then
      let st2 := walk ctx c leafCounter icz
        (match c.attrs.filterParent with
          | some fp => some fp
          | none => emp) st
      let lc2 := if emp == none then leafCounter + c.attrs.numLeaves else leafCounter
      walkChildren ctx rest lc2 icz emp st2
    else
      walkChildren ctx rest leafCounter icz emp st
end

/-- The solver geometry pass, as `_init` invokes it:
`this._computeSolverNormalizedPositions(this.model.root, 0, false, null)`. -/
def computeSolverNormalizedPositions (ctx : LayoutCtx) (root : OmNode)
    (st : WalkState) : WalkState :=
  walk ctx root 0 false none st

mutual
/-- The nodes the walk actually visits (assigns geometry to): the node
itself unless it fails the `instanceof OmTreeNode` guard, then recursively
the children that are not minimized inputs/outputs. -/
def visitedNodes : OmNode → List OmNode
  | .mk a cs => if !a.isOm then [] else .mk a cs :: visitedList cs

def visitedList : List OmNode → List OmNode
  | [] => []
  | c :: rest =>
    (if !(c.attrs.isInputOrOutput && c.attrs.minimized) then visitedNodes c else [])
      ++ visitedList rest
end

mutual
/-- Every node of a tree. -/
def subtreeNodes : OmNode → List OmNode
  | .mk a cs => .mk a cs :: subtreeList cs

def subtreeList : List OmNode → List OmNode
  | [] => []
  | c :: rest => subtreeNodes c ++ subtreeList rest
end

/-- The node ids of a list of nodes. -/
def nodeIds (l : List OmNode) : List ℕ := l.map (fun m => m.attrs.id)

/-- A fresh walk state: empty node lists, empty stores, no division by
zero recorded.  `dims0` is the primary-tree rectangle store the earlier
primary pass produced. -/
def initialWalkState (dims0 : Store) : WalkState :=
  { zoomedSolverNodes := []
  , visibleSolverNodes := []
  , dims := dims0
  , solverDims := []
  , prevDims := []
  , prevSolverDims := []
  , divZero := false }

/-- The zero-leaf tree of claim C4: a single visible root, which is also
the zoom focus, with `model.root.draw.numLeaves = 0`. -/
def zeroLeafAttrs : NodeAttrs :=
  { id := 1, depth := 0, type := "root", isOm := true, isInput := false
  , isInputOrOutput := false, isVisible := true, isVisibleLeaf := false
  , minimized := false, filtered := false, filterParent := none
  , subsystemChildren := true, numLeaves := 0, parentComponent := none }

def zeroLeafTree : OmNode := .mk zeroLeafAttrs []

/-- Layout inputs for the zero-leaf tree: nonzero tree sizes, and
`totalLeaves = model.root.draw.numLeaves = 0`. -/
def zeroLeafCtx : LayoutCtx :=
  { zoomedId := 1
  , sz := { partitionTreeWidth := 100, solverTreeWidth := 50
          , solverTreeHeight := 50, parentNodeWidth := 10 }
  , cols := []
  , solverCols := [⟨50, 0⟩]
  , totalLeaves := 0 }

/-- A hidden (non-visible), non-minimized input child of the root: the walk
visits it and it takes the degenerate-rectangle branch. -/
def hiddenInputAttrs : NodeAttrs :=
  { id := 2, depth := 1, type := "input", isOm := true, isInput := true
  , isInputOrOutput := true, isVisible := false, isVisibleLeaf := false
  , minimized := false, filtered := false, filterParent := none
  , subsystemChildren := false, numLeaves := 1, parentComponent := some ⟨1, 0, 1⟩ }

/-- A visible root with one leaf under it. -/
def rootVisibleAttrs : NodeAttrs := { zeroLeafAttrs with numLeaves := 1 }

def treeWithHiddenInput : OmNode :=
  .mk rootVisibleAttrs [.mk hiddenInputAttrs []]

/-- Layout inputs with one total leaf. -/
def oneLeafCtx : LayoutCtx := { zeroLeafCtx with totalLeaves := 1 }

/-- A primary-tree rectangle store carrying the root's primary rectangle
(read back as the parent position of hidden children). -/
def dimsWitness : Store := [(1, ⟨0, 1/4, 1, 1/2⟩)]

/-- The same input child, but minimized: the children loop of the walk
skips it entirely. -/
def minimizedInputAttrs : NodeAttrs :=
  { hiddenInputAttrs with minimized := true }

def treeWithMinimizedInput : OmNode :=
  .mk rootVisibleAttrs [.mk minimizedInputAttrs []]

/-! ## Claim C8: invariants of a full solver geometry pass

The pass is analysed with the zoom focus at the root (a full pass over the
whole tree).  `nodeWF`/`treeWF` state the well-formedness the external
model preprocessing guarantees: every node is an `OmTreeNode`; leaf counts
are nonnegative, zero on hidden nodes, and add up across visited children
of uncollapsed nodes; visible leaves are visible; the filtering feature is
not in use; and inside a collapsed (visible-leaf) subtree no visible node
takes the subsystem-column width branch. -/

/-- The children the loop recurses into (not minimized inputs/outputs). -/
def childFilter (cs : List OmNode) : List OmNode :=
  cs.filter (fun c => !(c.attrs.isInputOrOutput && c.attrs.minimized))

/-- Total leaf count of the visited children. -/
def visitedSum (cs : List OmNode) : ℚ :=
  ((childFilter cs).map (fun c => c.attrs.numLeaves)).sum

/-- Per-node well-formedness (see the section comment). -/
structure NodeWF (n : OmNode) : Prop where
  isOm : n.attrs.isOm = true
  nlNonneg : 0 ≤ n.attrs.numLeaves
  leafVisible : n.attrs.isVisibleLeaf = true → n.attrs.isVisible = true
  notFiltered : n.attrs.filtered = false
  noFilterParent : n.attrs.filterParent = none
  hiddenZero : n.attrs.isVisible = false → n.attrs.numLeaves = 0
  sumLeaves : n.attrs.isVisibleLeaf = false → n.attrs.numLeaves = visitedSum n.children
  leafBranch : n.attrs.isVisibleLeaf = true →
      ∀ d ∈ subtreeNodes n, d.attrs.isVisible = true →
        (d.attrs.subsystemChildren && !d.attrs.minimized) = false

/-- Numeric well-formedness of the layout inputs: positive solver-tree
width and total leaf count, and solver columns lying within the tree
width. -/
def colOK (w : ℚ) (c : Col) : Prop :=
  0 ≤ c.location ∧ 0 ≤ c.width ∧ c.location + c.width ≤ w

structure CtxOK (ctx : LayoutCtx) : Prop where
  wPos : 0 < ctx.sz.solverTreeWidth
  tPos : 0 < ctx.totalLeaves
  cols : ∀ c ∈ ctx.solverCols, colOK ctx.sz.solverTreeWidth c

/-- Node `p` is reached from `n` along visited, uncollapsed (not visible-leaf)
ancestors — the walk reaches `p` with no anchor set. -/
inductive ClearPath : OmNode → OmNode → Prop
  | refl (n : OmNode) : ClearPath n n
  | step (n c p : OmNode) :
      n.attrs.isOm = true →
      n.attrs.isVisibleLeaf = false →
      c ∈ childFilter n.children →
      ClearPath c p →
      ClearPath n p

/-- The rectangle a clear-reached (anchorless) node receives: its own
column position, the current leaf counter, its own leaf count, and either
the column width (subsystem branch) or the remaining width. -/
def clearRect (ctx : LayoutCtx) (a : NodeAttrs) (lc : ℚ) : Rect :=
  { x := (colAt ctx.solverCols a.depth).location / ctx.sz.solverTreeWidth
  , y := lc / ctx.totalLeaves
  , width :=
      if a.subsystemChildren && !a.minimized
      then (colAt ctx.solverCols a.depth).width / ctx.sz.solverTreeWidth
      else 1 - (colAt ctx.solverCols a.depth).location / ctx.sz.solverTreeWidth
  , height := a.numLeaves / ctx.totalLeaves }

/-- The single rectangle every visible node of a collapsed subtree shares:
determined by the anchor `w` and the leaf counter frozen at the anchor. -/
def anchorRect (ctx : LayoutCtx) (w : NodeRef) (lc : ℚ) : Rect :=
  { x := (colAt ctx.solverCols w.depth).location / ctx.sz.solverTreeWidth
  , y := lc / ctx.totalLeaves
  , width := 1 - (colAt ctx.solverCols w.depth).location / ctx.sz.solverTreeWidth
  , height := w.numLeaves / ctx.totalLeaves }

/-- Containment in the unit square with nonnegative extents. -/
def inBox (r : Rect) : Prop :=
  0 ≤ r.x ∧ 0 ≤ r.y ∧ 0 ≤ r.width ∧ 0 ≤ r.height
    ∧ r.x + r.width ≤ 1 ∧ r.y + r.height ≤ 1

/-- The partition property at an uncollapsed visible parent `p`: the
heights of its visible visited children sum exactly to its own height. -/
def partitionEq (s : Store) (p : OmNode) : Prop :=
  (((childFilter p.children).filter (fun c => c.attrs.isVisible)).map
      (fun c => (rectAt s c.attrs.id).height)).sum
    = (rectAt s p.attrs.id).height

/-- The invariant carried below an anchor `w` (a collapsed visible leaf
above the current node): its id lies outside the current subtree, its leaf
count is within bounds of the frozen counter, its stored rectangle is the
anchor rectangle, and no visible node below takes the subsystem width
branch. -/
structure AnchorInv (ctx : LayoutCtx) (scope : List OmNode) (lc : ℚ)
    (w : NodeRef) (st : WalkState) : Prop where
  notInScope : w.id ∉ nodeIds scope
  nlNonneg : 0 ≤ w.numLeaves
  fits : lc + w.numLeaves ≤ ctx.totalLeaves
  stored : storeGet st.solverDims w.id = some (anchorRect ctx w lc)
  branchB : ∀ d ∈ scope, d.attrs.isVisible = true →
      (d.attrs.subsystemChildren && !d.attrs.minimized) = false

/-- A concrete well-formed tree for C8's witness: a visible root with two
visible, minimized leaf children. -/
def exC8RootAttrs : NodeAttrs :=
  { id := 1, depth := 0, type := "root", isOm := true, isInput := false
  , isInputOrOutput := false, isVisible := true, isVisibleLeaf := false
  , minimized := false, filtered := false, filterParent := none
  , subsystemChildren := true, numLeaves := 2, parentComponent := none }

def exC8LeafA : NodeAttrs :=
  { id := 2, depth := 1, type := "subsystem", isOm := true, isInput := false
  , isInputOrOutput := false, isVisible := true, isVisibleLeaf := true
  , minimized := true, filtered := false, filterParent := none
  , subsystemChildren := true, numLeaves := 1, parentComponent := some ⟨1, 0, 2⟩ }

def exC8LeafB : NodeAttrs := { exC8LeafA with id := 3 }

def exC8Tree : OmNode := .mk exC8RootAttrs [.mk exC8LeafA [], .mk exC8LeafB []]

def exC8Ctx : LayoutCtx :=
  { zoomedId := 1
  , sz := { partitionTreeWidth := 100, solverTreeWidth := 10
          , solverTreeHeight := 50, parentNodeWidth := 5 }
  , cols := []
  , solverCols := [⟨4, 0⟩, ⟨6, 4⟩]
  , totalLeaves := 2 }

/-! ## Theorems -/

/-! ### Basic lemmas about the object model -/

theorem objLookup_cons (p : String × ℚ) (o : List (String × ℚ)) (k : String) :
    objLookup (p :: o : List (String × ℚ)) k = if p.1 = k then some p.2 else objLookup o k := by
  by_cases h : p.1 = k
  · simp [objLookup, List.find?, h]
  · have hb : (p.1 == k) = false := beq_eq_false_iff_ne.mpr h
    simp [objLookup, List.find?, h, hb]

theorem objLookup_objSet_self (o : JsObj) (k : String) (v : ℚ) :
    objLookup (objSet o k v) k = some v := by
  show objLookup ((k, v) :: o : List (String × ℚ)) k = some v
  rw [objLookup_cons]; simp

theorem objLookup_objSet_ne (o : JsObj) (k k' : String) (v : ℚ) (h : k' ≠ k) :
    objLookup (objSet o k v) k' = objLookup o k' := by
  show objLookup ((k, v) :: o : List (String × ℚ)) k' = objLookup o k'
  rw [objLookup_cons]; simp [Ne.symm h]

theorem objLookup_map_self (f : String → ℚ) (l : List String) (k : String) (h : k ∈ l) :
    objLookup (l.map (fun p => (p, f p))) k = some (f k) := by
  induction l with
  | nil => cases h
  | cons a l ih =>
    rw [List.map_cons, objLookup_cons]
    by_cases hak : a = k
    · simp [hak]
    · simp only [hak, if_false]
      exact ih (by
        cases h with
        | head => exact absurd rfl hak
        | tail _ h => exact h)

/-! ### Lemmas about `initFromProps` -/

theorem initFromProps_unit (obj : JsObj) (ip : Bool) (ps : List String) (d : Dimensions) :
    (initFromProps obj ip ps d).unit = d.unit := by
  induction ps generalizing d with
  | nil => rfl
  | cons p ps ih =>
    simp only [initFromProps]
    split <;> simp [ih]

theorem initFromProps_managed (obj : JsObj) (ip : Bool) (ps : List String) (d : Dimensions) :
    (initFromProps obj ip ps d).managedProps
      = d.managedProps ++ ps.filter (fun p => objHas obj p) := by
  induction ps generalizing d with
  | nil => simp [initFromProps]
  | cons p ps ih =>
    simp only [initFromProps]
    cases hp : objHas obj p with
    | true => simp [hp, ih, List.filter_cons]
    | false => simp [hp, ih, List.filter_cons]

theorem initFromProps_prev_false (obj : JsObj) (ps : List String) (d : Dimensions) :
    (initFromProps obj false ps d).prev = d.prev := by
  induction ps generalizing d with
  | nil => rfl
  | cons p ps ih =>
    simp only [initFromProps]
    split <;> simp [ih]

theorem initFromProps_prev_lookup (obj : JsObj) (ps : List String) (d : Dimensions)
    (k : String) :
    objLookup (initFromProps obj true ps d).prev k
      = if k ∈ ps.filter (fun p => objHas obj p) then some 0 else objLookup d.prev k := by
  induction ps generalizing d with
  | nil => simp [initFromProps]
  | cons p ps ih =>
    simp only [initFromProps]
    cases hp : objHas obj p with
    | true =>
      simp only [if_true]
      rw [ih, List.filter_cons, hp]
      by_cases hk : k ∈ ps.filter (fun p => objHas obj p)
      · simp [hk, List.mem_cons]
      · by_cases hkp : k = p
        · subst hkp
          simp [hk, objLookup_objSet_self]
        · simp [hk, hkp, objLookup_objSet_ne d.prev p k 0 hkp]
    | false =>
      simp only [Bool.false_eq_true, if_false]
      rw [ih, List.filter_cons, hp]
      simp

theorem initFromProps_fields_not_mem (obj : JsObj) (ip : Bool) (ps : List String)
    (d : Dimensions) (k : String) (hk : k ∉ ps) :
    objLookup (initFromProps obj ip ps d).fields k = objLookup d.fields k := by
  induction ps generalizing d with
  | nil => rfl
  | cons p ps ih =>
    have hkp : k ≠ p := fun h => hk (h ▸ List.mem_cons_self p ps)
    have hks : k ∉ ps := fun h => hk (List.mem_cons_of_mem p h)
    simp only [initFromProps]
    split
    · rw [ih _ hks]
      simp [objLookup_objSet_ne d.fields p k _ hkp]
    · exact ih _ hks

theorem initFromProps_fields_mem (obj : JsObj) (ip : Bool) (ps : List String)
    (d : Dimensions) (k : String) (hnd : ps.Nodup) (hk : k ∈ ps)
    (hh : objHas obj k = true) :
    objLookup (initFromProps obj ip ps d).fields k = some (objGet obj k) := by
  induction ps generalizing d with
  | nil => cases hk
  | cons p ps ih =>
    simp only [initFromProps]
    by_cases hkp : k = p
    · subst hkp
      have hks : k ∉ ps := (List.nodup_cons.mp hnd).1
      simp only [hh, if_true]
      rw [initFromProps_fields_not_mem obj ip ps _ k hks]
      simp [objLookup_objSet_self]
    · have hks : k ∈ ps := by
        cases hk with
        | head => exact absurd rfl hkp
        | tail _ h => exact h
      have hnd' : ps.Nodup := (List.nodup_cons.mp hnd).2
      split
      · exact ih _ hnd' hks
      · exact ih _ hnd' hks

theorem initFromProps_congr (obj obj2 : JsObj) (ip : Bool) (ps : List String)
    (d : Dimensions)
    (h : ∀ k ∈ ps, objHas obj2 k = objHas obj k ∧ objGet obj2 k = objGet obj k) :
    initFromProps obj2 ip ps d = initFromProps obj ip ps d := by
  induction ps generalizing d with
  | nil => rfl
  | cons p ps ih =>
    have hp := h p (List.mem_cons_self p ps)
    have hrest : ∀ k ∈ ps, objHas obj2 k = objHas obj k ∧ objGet obj2 k = objGet obj k :=
      fun k hk => h k (List.mem_cons_of_mem p hk)
    simp only [initFromProps, hp.1, hp.2]
    split
    · exact ih _ hrest
    · exact ih _ hrest

/-! ## Claims C1–C3 about `Dimensions` -/

/-- Claim C1 (code bug): for every pair of `Dimensions` instances,
`copyFrom(other)` throws a `TypeError` — the source iterates the plain
object `other.prev` with `for...of`, which is not legal on a plain object —
so the deep copy the claim (and the method's own documentation) promises is
never produced. -/
theorem copyFrom_always_throws (a b : Dimensions) :
    a.copyFrom b = .error "TypeError: object is not iterable" := rfl

/-- Claim C2: `preserve()` replaces `prev` by a map whose keys are exactly
the currently managed properties, each bound to its current value, and a
second `preserve()` with no intervening mutation leaves `prev` unchanged
(and still equal to the current values). -/
theorem preserve_exact_and_idempotent (d : Dimensions) :
    ((d.preserve).prev.map Prod.fst = d.managedProps
      ∧ ∀ k ∈ d.managedProps, objLookup (d.preserve).prev k = some (objGet d.fields k))
    ∧ (d.preserve.preserve).prev = (d.preserve).prev
      ∧ ∀ k ∈ d.managedProps,
          objLookup (d.preserve.preserve).prev k = some (objGet d.fields k) := by
  refine ⟨⟨?_, ?_⟩, ?_, ?_⟩
  · have hid : (Prod.fst ∘ fun p => (p, objGet d.fields p)) = id := by
      funext p; rfl
    simp [Dimensions.preserve, List.map_map, hid]
  · intro k hk
    simpa [Dimensions.preserve] using objLookup_map_self (fun p => objGet d.fields p) _ k hk
  · rfl
  · intro k hk
    simpa [Dimensions.preserve] using objLookup_map_self (fun p => objGet d.fields p) _ k hk

/-- Closed witness for C2's theorem at a concrete instance. -/
theorem preserve_exact_and_idempotent_witness :
    ((((Dimensions.new [("x", 5), ("top", 7)] "px").preserve).prev.map Prod.fst
        = (Dimensions.new [("x", 5), ("top", 7)] "px").managedProps
      ∧ ∀ k ∈ (Dimensions.new [("x", 5), ("top", 7)] "px").managedProps,
          objLookup ((Dimensions.new [("x", 5), ("top", 7)] "px").preserve).prev k
            = some (objGet (Dimensions.new [("x", 5), ("top", 7)] "px").fields k))
    ∧ ((Dimensions.new [("x", 5), ("top", 7)] "px").preserve.preserve).prev
        = ((Dimensions.new [("x", 5), ("top", 7)] "px").preserve).prev
      ∧ ∀ k ∈ (Dimensions.new [("x", 5), ("top", 7)] "px").managedProps,
          objLookup ((Dimensions.new [("x", 5), ("top", 7)] "px").preserve.preserve).prev k
            = some (objGet (Dimensions.new [("x", 5), ("top", 7)] "px").fields k)) :=
  preserve_exact_and_idempotent (Dimensions.new [("x", 5), ("top", 7)] "px")

/-- Claim C3: `initFrom(source, unit, true)` makes the managed-property set
exactly the allowed properties present on the source (in the allowed order),
copies each such property's value onto the receiver, is insensitive to every
key of the source outside the allowed set (they are silently ignored — the
result only depends on the allowed keys), resets `unit`, and creates a fresh
`prev` binding exactly the managed properties to 0. -/
theorem initFrom_spec (d : Dimensions) (obj : JsObj) (u : String) :
    (Dimensions.initFrom d obj u true).managedProps
        = allowedProps.filter (fun p => objHas obj p)
    ∧ (∀ k ∈ allowedProps, objHas obj k = true →
        objLookup (Dimensions.initFrom d obj u true).fields k = some (objGet obj k))
    ∧ (∀ obj2 : JsObj,
        (∀ k ∈ allowedProps, objHas obj2 k = objHas obj k ∧ objGet obj2 k = objGet obj k) →
        Dimensions.initFrom d obj2 u true = Dimensions.initFrom d obj u true)
    ∧ (Dimensions.initFrom d obj u true).unit = u
    ∧ (∀ k, objLookup (Dimensions.initFrom d obj u true).prev k
        = if k ∈ (Dimensions.initFrom d obj u true).managedProps then some 0 else none) := by
  have hnd : allowedProps.Nodup := by decide
  refine ⟨?_, ?_, ?_, ?_, ?_⟩
  · simpa [Dimensions.initFrom] using
      initFromProps_managed obj true allowedProps _
  · intro k hk hh
    exact initFromProps_fields_mem obj true allowedProps _ k hnd hk hh
  · intro obj2 h
    exact initFromProps_congr obj obj2 true allowedProps _
      (fun k hk => ⟨(h k hk).1, (h k hk).2⟩)
  · exact initFromProps_unit obj true allowedProps _
  · intro k
    simp only [Dimensions.initFrom]
    rw [initFromProps_prev_lookup, initFromProps_managed]
    simp [objLookup]

/-- Closed witness for C3's theorem, exercising the inner hypotheses (a
source carrying the unrecognised key "bogus" is treated like one without
it). -/
theorem initFrom_spec_witness :
    (Dimensions.initFrom (Dimensions.new [] "px") [("x", 3), ("bogus", 9)] "em" true).managedProps
        = allowedProps.filter (fun p => objHas [("x", 3), ("bogus", 9)] p)
    ∧ objLookup (Dimensions.initFrom (Dimensions.new [] "px")
        [("x", 3), ("bogus", 9)] "em" true).fields "x" = some 3
    ∧ Dimensions.initFrom (Dimensions.new [] "px") [("x", 3)] "em" true
        = Dimensions.initFrom (Dimensions.new [] "px") [("x", 3), ("bogus", 9)] "em" true
    ∧ objLookup (Dimensions.initFrom (Dimensions.new [] "px")
        [("x", 3), ("bogus", 9)] "em" true).prev "x" = some 0 := by
  have h := initFrom_spec (Dimensions.new [] "px") [("x", 3), ("bogus", 9)] "em"
  refine ⟨h.1, ?_, ?_, ?_⟩
  · have := h.2.1 "x" (by decide) (by decide)
    simpa [objGet] using this
  · exact h.2.2.1 [("x", 3)] (by decide)
  · have := h.2.2.2.2 "x"
    rw [this]
    simp [h.1]
    decide

/-- Claim C6: after `updateScaleValues()` the solver transit coordinates and
the solver x/y scaler domains and ranges are exactly the values the claim
describes (for every input configuration). -/
theorem updateScaleValues_matches_spec (elemDims : Rect)
    (treeWidth treeHeight parentNodeWidth : ℚ) :
    updateScaleValues elemDims treeWidth treeHeight parentNodeWidth
      = updateScaleValuesSpec elemDims treeWidth treeHeight parentNodeWidth := by
  by_cases h : elemDims.x = 0 <;>
    simp [updateScaleValues, updateScaleValuesSpec, h]

/-! ### Lemmas for the shortfall loop -/

theorem idxRange_succ (lo k : ℕ) : idxRange lo (k + 1) = lo :: idxRange (lo + 1) k := by
  unfold idxRange
  rw [List.range_succ_eq_map, List.map_cons, List.map_map]
  refine congrArg₂ _ (by simp) ?_
  apply List.map_congr_left
  intro a _
  simp [Function.comp]
  omega

theorem foldl_max_pull (l : List ℚ) (a b : ℚ) :
    l.foldl max (max a b) = max (l.foldl max a) b := by
  induction l generalizing a with
  | nil => rfl
  | cons x l ih =>
    simp only [List.foldl_cons]
    rw [sup_right_comm a b x, ih]

theorem foldl_max_init_le (l : List ℚ) (a : ℚ) : a ≤ l.foldl max a := by
  induction l generalizing a with
  | nil => exact le_refl a
  | cons x l ih => exact le_trans (le_max_left a x) (ih (max a x))

theorem shortfall_fold (cols : List Col) (leafW : List ℚ) (k : ℕ) : ∀ lo : ℕ,
    ((idxRange lo k).reverse).foldl (shortfallStep cols leafW) (0, 0)
      = (((idxRange lo k).map (fun j => (colAt cols j).width)).sum,
         ((idxRange lo k).map
           (fun i => leafW.getD i 0
             - ((idxRange i (lo + k - i)).map (fun j => (colAt cols j).width)).sum)).foldl
           max 0) := by
  induction k with
  | zero => intro lo; simp [idxRange]
  | succ k ih =>
    intro lo
    rw [idxRange_succ, List.reverse_cons, List.foldl_append, ih (lo + 1)]
    simp only [List.foldl_cons, List.foldl_nil, List.map_cons, List.sum_cons,
      shortfallStep]
    have hc1 : lo + (k + 1) - lo = k + 1 := by omega
    have hfun :
        (idxRange (lo + 1) k).map
            (fun i => leafW.getD i 0
              - ((idxRange i (lo + (k + 1) - i)).map (fun j => (colAt cols j).width)).sum)
          = (idxRange (lo + 1) k).map
            (fun i => leafW.getD i 0
              - ((idxRange i (lo + 1 + k - i)).map (fun j => (colAt cols j).width)).sum) := by
      apply List.map_congr_left
      intro i _
      have : lo + (k + 1) - i = lo + 1 + k - i := by omega
      rw [this]
    rw [hc1, hfun, idxRange_succ, List.map_cons, List.sum_cons, foldl_max_pull]
    refine Prod.ext ?_ ?_
    · simp [add_comm]
    · simp only []
      rw [max_comm]
      congr 1
      ring

theorem shortfallLoop_eq_largestShortfall (cols : List Col) (leafW : List ℚ)
    (lo : ℕ) (h : lo ≤ leafW.length) :
    shortfallLoop cols leafW lo = largestShortfall cols leafW lo := by
  unfold shortfallLoop largestShortfall suffixW
  rw [shortfall_fold]
  have hfun :
      (idxRange lo (leafW.length - lo)).map
          (fun i => leafW.getD i 0
            - ((idxRange i (lo + (leafW.length - lo) - i)).map
                (fun j => (colAt cols j).width)).sum)
        = (idxRange lo (leafW.length - lo)).map
          (fun i => leafW.getD i 0
            - ((idxRange i (leafW.length - i)).map (fun j => (colAt cols j).width)).sum) := by
    apply List.map_congr_left
    intro i _
    have : lo + (leafW.length - lo) - i = leafW.length - i := by omega
    rw [this]
  rw [hfun]

theorem largestShortfall_nonneg (cols : List Col) (leafW : List ℚ) (lo : ℕ) :
    0 ≤ largestShortfall cols leafW lo :=
  foldl_max_init_le _ 0

theorem colAt_setColWidth_self (cs : List Col) (i : ℕ) (w : ℚ) (h : i < cs.length) :
    colAt (setColWidth cs i w) i = { colAt cs i with width := w } := by
  simp [colAt, setColWidth, List.getD, List.getElem?_set_self, h]

theorem colAt_setColWidth_ne (cs : List Col) (i j : ℕ) (w : ℚ) (h : j ≠ i) :
    colAt (setColWidth cs i w) j = colAt cs j := by
  simp [colAt, setColWidth, List.getD, List.getElem?_set_ne (Ne.symm h)]

/-- Claim C7: provided the zoomed element is not the root and the deepest
occupied depth lies below the forced parent column (as the walk guarantees
for a visible focus), `_computeSolverColumnWidths` completes and leaves the
column at depth `zoomedDepth − 1` with the fixed parent-node width, and the
column at `greatestDepth` with the largest (max-with-zero-clamped)
shortfall between any depth's per-leaf width requirement and the running
sum of column widths from the deepest level down to the focus depth. -/
theorem solverColumnWidths_endpoints (cols : List Col) (leafW : List ℚ)
    (greatestDepth zoomedDepth : ℕ) (parentNodeWidth : ℚ)
    (hz : 1 ≤ zoomedDepth) (hne : greatestDepth ≠ zoomedDepth - 1)
    (hzlen : zoomedDepth - 1 < cols.length) (hglen : greatestDepth < cols.length)
    (hlo : zoomedDepth ≤ leafW.length) :
    ∃ res, computeSolverColumnWidthsFinish cols leafW greatestDepth zoomedDepth
        parentNodeWidth = some res
      ∧ (colAt res (zoomedDepth - 1)).width = parentNodeWidth
      ∧ (colAt res greatestDepth).width = largestShortfall cols leafW zoomedDepth
      ∧ 0 ≤ largestShortfall cols leafW zoomedDepth := by
  have h0 : zoomedDepth ≠ 0 := by omega
  have hres : computeSolverColumnWidthsFinish cols leafW greatestDepth zoomedDepth
      parentNodeWidth
      = some (setColWidth (setColWidth cols (zoomedDepth - 1) parentNodeWidth)
          greatestDepth (shortfallLoop cols leafW zoomedDepth)) := by
    simp [computeSolverColumnWidthsFinish, h0]
  refine ⟨_, hres, ?_, ?_, largestShortfall_nonneg cols leafW zoomedDepth⟩
  · rw [colAt_setColWidth_ne _ _ _ _ (Ne.symm hne),
      colAt_setColWidth_self _ _ _ hzlen]
  · have hglen' : greatestDepth < (setColWidth cols (zoomedDepth - 1) parentNodeWidth).length := by
      simpa [setColWidth] using hglen
    rw [colAt_setColWidth_self _ _ _ hglen',
      shortfallLoop_eq_largestShortfall cols leafW zoomedDepth hlo]

/-- Claim C10: after `_init`, `transitCoords.solver` exists regardless of
`showSolvers`, `scales.solver` exists exactly when `showSolvers` is true,
and `preservePreviousScaleValues()` is well-defined (does not throw on
`this.scales.solver.preserve`) exactly when the layout was constructed
with `showSolvers` true. -/
theorem scales_solver_requires_showSolvers (b : Bool) (sc : Scale) :
    (omLayoutInit b sc).transitCoordsSolver.isSome = true
    ∧ (omLayoutInit b sc).scalesSolver.isSome = b
    ∧ (preservePreviousScaleValues (omLayoutInit b sc)).isSome = b := by
  cases b <;> simp [omLayoutInit, preservePreviousScaleValues]

/-- Closed witness for C7's theorem: a concrete three-column configuration
with the focus at depth 1 and deepest occupied depth 2. -/
theorem solverColumnWidths_endpoints_witness :
    ∃ res, computeSolverColumnWidthsFinish
        [⟨10, 0⟩, ⟨20, 10⟩, ⟨30, 30⟩] [0, 5, 100] 2 1 40 = some res
      ∧ (colAt res 0).width = 40
      ∧ (colAt res 2).width = largestShortfall [⟨10, 0⟩, ⟨20, 10⟩, ⟨30, 30⟩] [0, 5, 100] 1
      ∧ 0 ≤ largestShortfall [⟨10, 0⟩, ⟨20, 10⟩, ⟨30, 30⟩] [0, 5, 100] 1 :=
  solverColumnWidths_endpoints [⟨10, 0⟩, ⟨20, 10⟩, ⟨30, 30⟩] [0, 5, 100] 2 1 40
    (by decide) (by decide) (by decide) (by decide) (by decide)

/-! ### Store and stage lemmas for the walk -/

theorem storeGet_storeSet_self (s : Store) (i : ℕ) (r : Rect) :
    storeGet (storeSet s i r) i = some r := by
  simp [storeGet, storeSet, List.find?]

theorem storeGet_storeSet_ne (s : Store) (i j : ℕ) (r : Rect) (h : j ≠ i) :
    storeGet (storeSet s i r) j = storeGet s j := by
  have hb : (i == j) = false := beq_eq_false_iff_ne.mpr (Ne.symm h)
  simp [storeGet, storeSet, List.find?, hb]

theorem storeGet_storeSet_isSome (s : Store) (i j : ℕ) (r : Rect)
    (h : (storeGet s i).isSome = true) :
    (storeGet (storeSet s j r) i).isSome = true := by
  by_cases hij : i = j
  · subst hij; rw [storeGet_storeSet_self]; rfl
  · rw [storeGet_storeSet_ne _ _ _ _ hij]; exact h

theorem anchorLists_dims (a : NodeAttrs) (g : Bool) (st : WalkState) :
    (anchorLists a g st).dims = st.dims := by
  simp only [anchorLists]; split_ifs <;> rfl

theorem anchorLists_solverDims (a : NodeAttrs) (g : Bool) (st : WalkState) :
    (anchorLists a g st).solverDims = st.solverDims := by
  simp only [anchorLists]; split_ifs <;> rfl

theorem anchorLists_divZero (a : NodeAttrs) (g : Bool) (st : WalkState) :
    (anchorLists a g st).divZero = st.divZero := by
  simp only [anchorLists]; split_ifs <;> rfl

theorem preserveDimsStage_dims (a : NodeAttrs) (st : WalkState) :
    (preserveDimsStage a st).dims = st.dims := rfl

theorem preserveDimsStage_solverDims (a : NodeAttrs) (st : WalkState) :
    (preserveDimsStage a st).solverDims = st.solverDims := rfl

theorem preserveDimsStage_divZero (a : NodeAttrs) (st : WalkState) :
    (preserveDimsStage a st).divZero = st.divZero := rfl

theorem assignStage_dims (ctx : LayoutCtx) (a : NodeAttrs) (lc : ℚ)
    (w : NodeRef) (st : WalkState) : (assignStage ctx a lc w st).dims = st.dims := rfl

theorem assignStage_solverDims (ctx : LayoutCtx) (a : NodeAttrs) (lc : ℚ)
    (w : NodeRef) (st : WalkState) :
    (assignStage ctx a lc w st).solverDims
      = storeSet st.solverDims a.id (assignRect ctx a lc w st) := rfl

/-! ### Unfolding equations for the walk -/

theorem walk_mk (ctx : LayoutCtx) (a : NodeAttrs) (cs : List OmNode) (lc : ℚ)
    (icz : Bool) (emp : Option NodeRef) (st : WalkState) :
    walk ctx (.mk a cs) lc icz emp st
      = if !a.isOm then st
        else
          walkChildren ctx cs lc (icz || (a.id == ctx.zoomedId))
            (anchorStage a (icz || (a.id == ctx.zoomedId)) emp st).2
            (assignStage ctx a lc
              (((anchorStage a (icz || (a.id == ctx.zoomedId)) emp st).2).getD a.ref)
              (preserveDimsStage a (anchorStage a (icz || (a.id == ctx.zoomedId)) emp st).1)) := by
  rw [walk]

theorem walkChildren_nil (ctx : LayoutCtx) (lc : ℚ) (icz : Bool)
    (emp : Option NodeRef) (st : WalkState) :
    walkChildren ctx [] lc icz emp st = st := by
  rw [walkChildren]

theorem walkChildren_cons (ctx : LayoutCtx) (c : OmNode) (rest : List OmNode)
    (lc : ℚ) (icz : Bool) (emp : Option NodeRef) (st : WalkState) :
    walkChildren ctx (c :: rest) lc icz emp st
      = if !(c.attrs.isInputOrOutput && c.attrs.minimized) then
          walkChildren ctx rest
            (if emp == none then lc + c.attrs.numLeaves else lc) icz emp
            (walk ctx c lc icz
              (match c.attrs.filterParent with
                | some fp => some fp
                | none => emp) st)
        else walkChildren ctx rest lc icz emp st := by
  rw [walkChildren]

theorem visitedNodes_mk (a : NodeAttrs) (cs : List OmNode) :
    visitedNodes (.mk a cs)
      = if !a.isOm then [] else .mk a cs :: visitedList cs := by
  rw [visitedNodes]

theorem visitedList_cons (c : OmNode) (rest : List OmNode) :
    visitedList (c :: rest)
      = (if !(c.attrs.isInputOrOutput && c.attrs.minimized) then visitedNodes c else [])
          ++ visitedList rest := by
  rw [visitedList]

/-! ### The walk leaves the primary rectangles unchanged -/

mutual
theorem walk_dims_eq (ctx : LayoutCtx) (n : OmNode) (lc : ℚ) (icz : Bool)
    (emp : Option NodeRef) (st : WalkState) :
    (walk ctx n lc icz emp st).dims = st.dims := by
  match n with
  | .mk a cs =>
    rw [walk_mk]
    by_cases h : (!a.isOm) = true
    · rw [if_pos h]
    · rw [if_neg h, walkChildren_dims_eq, assignStage_dims, preserveDimsStage_dims,
        anchorStage, anchorLists_dims]

theorem walkChildren_dims_eq (ctx : LayoutCtx) (cs : List OmNode) (lc : ℚ)
    (icz : Bool) (emp : Option NodeRef) (st : WalkState) :
    (walkChildren ctx cs lc icz emp st).dims = st.dims := by
  match cs with
  | [] => rw [walkChildren_nil]
  | c :: rest =>
    rw [walkChildren_cons]
    by_cases h : (!(c.attrs.isInputOrOutput && c.attrs.minimized)) = true
    · rw [if_pos h, walkChildren_dims_eq, walk_dims_eq]
    · rw [if_neg h, walkChildren_dims_eq]
end

/-! ### Ids outside the visited set keep their solver rectangles -/

mutual
theorem walk_untouched (ctx : LayoutCtx) (n : OmNode) (lc : ℚ) (icz : Bool)
    (emp : Option NodeRef) (st : WalkState) (i : ℕ)
    (h : i ∉ nodeIds (visitedNodes n)) :
    storeGet (walk ctx n lc icz emp st).solverDims i = storeGet st.solverDims i := by
  match n with
  | .mk a cs =>
    by_cases hom : (!a.isOm) = true
    · rw [walk_mk, if_pos hom]
    · rw [walk_mk, if_neg hom]
      rw [visitedNodes_mk, if_neg hom] at h
      simp only [nodeIds, List.map_cons, List.mem_cons, not_or] at h
      have hia : i ≠ a.id := h.1
      have hil : i ∉ nodeIds (visitedList cs) := by
        simpa [nodeIds] using h.2
      rw [walkChildren_untouched _ _ _ _ _ _ _ hil, assignStage_solverDims,
        storeGet_storeSet_ne _ _ _ _ hia, preserveDimsStage_solverDims,
        anchorStage, anchorLists_solverDims]

theorem walkChildren_untouched (ctx : LayoutCtx) (cs : List OmNode) (lc : ℚ)
    (icz : Bool) (emp : Option NodeRef) (st : WalkState) (i : ℕ)
    (h : i ∉ nodeIds (visitedList cs)) :
    storeGet (walkChildren ctx cs lc icz emp st).solverDims i
      = storeGet st.solverDims i := by
  match cs with
  | [] => rw [walkChildren_nil]
  | c :: rest =>
    rw [visitedList_cons] at h
    simp only [nodeIds, List.map_append, List.mem_append, not_or] at h
    rw [walkChildren_cons]
    by_cases hg : (!(c.attrs.isInputOrOutput && c.attrs.minimized)) = true
    · have hc : i ∉ nodeIds (visitedNodes c) := by
        have := h.1
        rw [if_pos hg] at this
        simpa [nodeIds] using this
      have hr : i ∉ nodeIds (visitedList rest) := by simpa [nodeIds] using h.2
      rw [if_pos hg, walkChildren_untouched _ _ _ _ _ _ _ hr,
        walk_untouched _ _ _ _ _ _ _ hc]
    · have hr : i ∉ nodeIds (visitedList rest) := by simpa [nodeIds] using h.2
      rw [if_neg hg, walkChildren_untouched _ _ _ _ _ _ _ hr]
end

/-! ### Once assigned, a solver rectangle entry stays present -/

mutual
theorem walk_mono (ctx : LayoutCtx) (n : OmNode) (lc : ℚ) (icz : Bool)
    (emp : Option NodeRef) (st : WalkState) (i : ℕ)
    (h : (storeGet st.solverDims i).isSome = true) :
    (storeGet (walk ctx n lc icz emp st).solverDims i).isSome = true := by
  match n with
  | .mk a cs =>
    by_cases hom : (!a.isOm) = true
    · rw [walk_mk, if_pos hom]; exact h
    · rw [walk_mk, if_neg hom]
      apply walkChildren_mono
      rw [assignStage_solverDims]
      apply storeGet_storeSet_isSome
      rw [preserveDimsStage_solverDims, anchorStage, anchorLists_solverDims]
      exact h

theorem walkChildren_mono (ctx : LayoutCtx) (cs : List OmNode) (lc : ℚ)
    (icz : Bool) (emp : Option NodeRef) (st : WalkState) (i : ℕ)
    (h : (storeGet st.solverDims i).isSome = true) :
    (storeGet (walkChildren ctx cs lc icz emp st).solverDims i).isSome = true := by
  match cs with
  | [] => rw [walkChildren_nil]; exact h
  | c :: rest =>
    rw [walkChildren_cons]
    by_cases hg : (!(c.attrs.isInputOrOutput && c.attrs.minimized)) = true
    · rw [if_pos hg]
      exact walkChildren_mono _ _ _ _ _ _ _ (walk_mono _ _ _ _ _ _ _ h)
    · rw [if_neg hg]
      exact walkChildren_mono _ _ _ _ _ _ _ h
end

/-! ### Every visited node gets a solver rectangle assigned -/

mutual
theorem walk_assigns (ctx : LayoutCtx) (n : OmNode) (lc : ℚ) (icz : Bool)
    (emp : Option NodeRef) (st : WalkState) (m : OmNode)
    (hm : m ∈ visitedNodes n) :
    (storeGet (walk ctx n lc icz emp st).solverDims m.attrs.id).isSome = true := by
  match n with
  | .mk a cs =>
    by_cases hom : (!a.isOm) = true
    · rw [visitedNodes_mk, if_pos hom] at hm
      cases hm
    · rw [visitedNodes_mk, if_neg hom] at hm
      rw [walk_mk, if_neg hom]
      cases hm with
      | head =>
        apply walkChildren_mono
        rw [assignStage_solverDims]
        rw [show (OmNode.mk a cs).attrs.id = a.id from rfl, storeGet_storeSet_self]
        rfl
      | tail _ hm' => exact walkChildren_assigns _ _ _ _ _ _ _ hm'

theorem walkChildren_assigns (ctx : LayoutCtx) (cs : List OmNode) (lc : ℚ)
    (icz : Bool) (emp : Option NodeRef) (st : WalkState) (m : OmNode)
    (hm : m ∈ visitedList cs) :
    (storeGet (walkChildren ctx cs lc icz emp st).solverDims m.attrs.id).isSome
      = true := by
  match cs with
  | [] => rw [visitedList] at hm; cases hm
  | c :: rest =>
    rw [visitedList_cons] at hm
    rw [walkChildren_cons]
    rcases List.mem_append.mp hm with hmc | hmr
    · by_cases hg : (!(c.attrs.isInputOrOutput && c.attrs.minimized)) = true
      · rw [if_pos hg] at hmc
        rw [if_pos hg]
        exact walkChildren_mono _ _ _ _ _ _ _ (walk_assigns _ _ _ _ _ _ _ hmc)
      · rw [if_neg hg] at hmc
        cases hmc
    · by_cases hg : (!(c.attrs.isInputOrOutput && c.attrs.minimized)) = true
      · rw [if_pos hg]
        exact walkChildren_assigns _ _ _ _ _ _ _ hmr
      · rw [if_neg hg]
        exact walkChildren_assigns _ _ _ _ _ _ _ hmr
end

/-! ### Invisible visited nodes get the epsilon rectangle -/

mutual
theorem walk_invisible (ctx : LayoutCtx) (n : OmNode) (lc : ℚ) (icz : Bool)
    (emp : Option NodeRef) (st : WalkState) (m : OmNode)
    (hm : m ∈ visitedNodes n) (hvis : m.attrs.isVisible = false)
    (hnd : (nodeIds (visitedNodes n)).Nodup) :
    storeGet (walk ctx n lc icz emp st).solverDims m.attrs.id
      = some (epsRect ctx st.dims m.attrs) := by
  match n with
  | .mk a cs =>
    by_cases hom : (!a.isOm) = true
    · rw [visitedNodes_mk, if_pos hom] at hm
      cases hm
    · rw [visitedNodes_mk, if_neg hom] at hm hnd
      simp only [nodeIds, List.map_cons, List.nodup_cons] at hnd
      rw [walk_mk, if_neg hom]
      cases hm with
      | head =>
        have ha : (OmNode.mk a cs).attrs.id ∉ nodeIds (visitedList cs) := by
          simpa [nodeIds] using hnd.1
        rw [walkChildren_untouched _ _ _ _ _ _ _ ha, assignStage_solverDims]
        rw [show (OmNode.mk a cs).attrs.id = a.id from rfl, storeGet_storeSet_self]
        have hv : (!a.isVisible) = true := by
          have : a.isVisible = false := hvis
          simp [this]
        rw [assignRect, if_pos hv]
        rw [preserveDimsStage_dims, anchorStage, anchorLists_dims]
        rfl
      | tail _ hm' =>
        have hnd' : (nodeIds (visitedList cs)).Nodup := by
          simpa [nodeIds] using hnd.2
        rw [walkChildren_invisible _ _ _ _ _ _ _ hm' hvis hnd',
          assignStage_dims, preserveDimsStage_dims, anchorStage, anchorLists_dims]

theorem walkChildren_invisible (ctx : LayoutCtx) (cs : List OmNode) (lc : ℚ)
    (icz : Bool) (emp : Option NodeRef) (st : WalkState) (m : OmNode)
    (hm : m ∈ visitedList cs) (hvis : m.attrs.isVisible = false)
    (hnd : (nodeIds (visitedList cs)).Nodup) :
    storeGet (walkChildren ctx cs lc icz emp st).solverDims m.attrs.id
      = some (epsRect ctx st.dims m.attrs) := by
  match cs with
  | [] => rw [visitedList] at hm; cases hm
  | c :: rest =>
    rw [visitedList_cons] at hm hnd
    simp only [nodeIds, List.map_append] at hnd
    have hnd2 := List.nodup_append.mp hnd
    rw [walkChildren_cons]
    rcases List.mem_append.mp hm with hmc | hmr
    · by_cases hg : (!(c.attrs.isInputOrOutput && c.attrs.minimized)) = true
      · rw [if_pos hg] at hmc
        rw [if_pos hg]
        have hmid : m.attrs.id ∈ nodeIds (visitedNodes c) :=
          List.mem_map_of_mem _ hmc
        have hnr : m.attrs.id ∉ nodeIds (visitedList rest) := by
          intro hx
          exact absurd hx (by
            have := hnd2.2.2
            rw [if_pos hg] at this
            exact this (by simpa [nodeIds] using hmid))
        have hndc : (nodeIds (visitedNodes c)).Nodup := by
          have := hnd2.1
          rw [if_pos hg] at this
          simpa [nodeIds] using this
        rw [walkChildren_untouched _ _ _ _ _ _ _ hnr,
          walk_invisible _ _ _ _ _ _ _ hmc hvis hndc]
      · rw [if_neg hg] at hmc
        cases hmc
    · have hndr : (nodeIds (visitedList rest)).Nodup := hnd2.2.1
      by_cases hg : (!(c.attrs.isInputOrOutput && c.attrs.minimized)) = true
      · rw [if_pos hg,
          walkChildren_invisible _ _ _ _ _ _ _ hmr hvis hndr, walk_dims_eq]
      · rw [if_neg hg,
          walkChildren_invisible _ _ _ _ _ _ _ hmr hvis hndr]
end

/-- Claim C5: every node the solver geometry walk visits that is not
currently visible (an input or otherwise hidden node) is assigned a
degenerate rectangle located at its parent component's position (the
parent's primary-tree y, and the primary column at the parent's depth + 1)
whose width and height equal the fixed epsilon 1e-6, which is strictly
positive. -/
theorem invisible_node_epsilon_rect (ctx : LayoutCtx) (root : OmNode)
    (st : WalkState) (m : OmNode) (pc : NodeRef)
    (hm : m ∈ visitedNodes root) (hvis : m.attrs.isVisible = false)
    (hpc : m.attrs.parentComponent = some pc)
    (hnd : (nodeIds (visitedNodes root)).Nodup) :
    storeGet (computeSolverNormalizedPositions ctx root st).solverDims m.attrs.id
      = some
        { x := (colAt ctx.cols (pc.depth + 1)).location / ctx.sz.partitionTreeWidth
        , y := (rectAt st.dims pc.id).y
        , width := 1 / 1000000
        , height := 1 / 1000000 }
    ∧ (0 : ℚ) < 1 / 1000000 := by
  refine ⟨?_, by norm_num⟩
  rw [computeSolverNormalizedPositions,
    walk_invisible ctx root 0 false none st m hm hvis hnd]
  simp [epsRect, hpc]

/-- Closed witness for C5's theorem: the hidden input child (id 2) of a
visible root. -/
theorem invisible_node_epsilon_rect_witness :
    storeGet (computeSolverNormalizedPositions oneLeafCtx treeWithHiddenInput
        (initialWalkState dimsWitness)).solverDims
        (OmNode.mk hiddenInputAttrs []).attrs.id
      = some
        { x := (colAt oneLeafCtx.cols ((0 : ℕ) + 1)).location
            / oneLeafCtx.sz.partitionTreeWidth
        , y := (rectAt (initialWalkState dimsWitness).dims 1).y
        , width := 1 / 1000000
        , height := 1 / 1000000 }
    ∧ (0 : ℚ) < 1 / 1000000 :=
  invisible_node_epsilon_rect oneLeafCtx treeWithHiddenInput
    (initialWalkState dimsWitness) (.mk hiddenInputAttrs []) ⟨1, 0, 1⟩
    (by simp [visitedNodes, visitedList, treeWithHiddenInput, rootVisibleAttrs,
      zeroLeafAttrs, hiddenInputAttrs, OmNode.attrs])
    (by simp [hiddenInputAttrs, OmNode.attrs])
    (by simp [hiddenInputAttrs, OmNode.attrs])
    (by simp [visitedNodes, visitedList, treeWithHiddenInput, rootVisibleAttrs,
      zeroLeafAttrs, hiddenInputAttrs, nodeIds, OmNode.attrs])

/-- Claim C9's counterexample: the claim says the pass assigns
`draw.solverDims` to every node, but a minimized input child (id 2) is a
node of the tree the children loop never visits — after the full pass its
solver rectangle was never assigned. -/
theorem solver_pass_skips_minimized_io :
    (OmNode.mk minimizedInputAttrs []) ∈ subtreeNodes treeWithMinimizedInput
    ∧ storeGet (computeSolverNormalizedPositions oneLeafCtx treeWithMinimizedInput
        (initialWalkState [])).solverDims 2 = none := by
  constructor
  · simp [subtreeNodes, subtreeList, treeWithMinimizedInput]
  · simp [computeSolverNormalizedPositions, walk, walkChildren, anchorStage,
      anchorLists, anchorOut, preserveDimsStage, assignStage, assignRect, visRect,
      epsRect, treeWithMinimizedInput, rootVisibleAttrs, zeroLeafAttrs,
      minimizedInputAttrs, hiddenInputAttrs, oneLeafCtx, zeroLeafCtx,
      initialWalkState, storeGet, storeSet, OmNode.attrs, List.find?]

/-- Claim C9 amended: with the primary geometry already computed, the
solver pass assigns `draw.solverDims` to every node it visits (every
`OmTreeNode` not inside a skipped minimized input/output subtree) while
leaving every node's `draw.dims` store unchanged. -/
theorem solver_pass_assigns_visited (ctx : LayoutCtx) (root : OmNode)
    (st : WalkState) :
    (computeSolverNormalizedPositions ctx root st).dims = st.dims
    ∧ ∀ m ∈ visitedNodes root,
        (storeGet (computeSolverNormalizedPositions ctx root st).solverDims
          m.attrs.id).isSome = true :=
  ⟨walk_dims_eq ctx root 0 false none st,
   fun m hm => walk_assigns ctx root 0 false none st m hm⟩

/-- Closed witness for the amended C9 theorem: the hidden-input tree; node
id 2 is visited and assigned, the primary store is untouched. -/
theorem solver_pass_assigns_visited_witness :
    (computeSolverNormalizedPositions oneLeafCtx treeWithHiddenInput
        (initialWalkState dimsWitness)).dims = (initialWalkState dimsWitness).dims
    ∧ (storeGet (computeSolverNormalizedPositions oneLeafCtx treeWithHiddenInput
        (initialWalkState dimsWitness)).solverDims
        (OmNode.mk hiddenInputAttrs []).attrs.id).isSome = true :=
  ⟨(solver_pass_assigns_visited oneLeafCtx treeWithHiddenInput
      (initialWalkState dimsWitness)).1,
   (solver_pass_assigns_visited oneLeafCtx treeWithHiddenInput
      (initialWalkState dimsWitness)).2 (.mk hiddenInputAttrs [])
    (by simp [visitedNodes, visitedList, treeWithHiddenInput, rootVisibleAttrs,
      zeroLeafAttrs, hiddenInputAttrs, OmNode.attrs])⟩

/-- Claim C4 (code bug): the layout computation has no zero-denominator
special cases.  On a zero-leaf tree the solver geometry pass executes
`leafCounter / this.model.root.draw.numLeaves` with denominator 0, and
`updateScaleValues` divides by `1 − elemDims.x = 0` when the zoomed
element's solver x is 1; in IEEE arithmetic these produce `NaN`/`Infinity`,
not the defined degenerate rectangle/scale the claim requires. -/
theorem layout_divides_by_zero :
    (computeSolverNormalizedPositions zeroLeafCtx zeroLeafTree
        (initialWalkState [])).divZero = true
    ∧ updateScaleValuesDividesByZero ⟨1, 0, 0, 1/2⟩ = true := by
  constructor
  · simp [computeSolverNormalizedPositions, walk, walkChildren, anchorStage,
      anchorLists, anchorOut, preserveDimsStage, assignStage, assignDivZero,
      zeroLeafCtx, zeroLeafTree, zeroLeafAttrs, initialWalkState]
  · simp [updateScaleValuesDividesByZero]

/-! ### Membership and arithmetic helpers for C8 -/

theorem subtreeNodes_mk (a : NodeAttrs) (cs : List OmNode) :
    subtreeNodes (.mk a cs) = .mk a cs :: subtreeList cs := by
  rw [subtreeNodes]

theorem subtreeList_cons (c : OmNode) (rest : List OmNode) :
    subtreeList (c :: rest) = subtreeNodes c ++ subtreeList rest := by
  rw [subtreeList]

theorem self_mem_subtreeNodes (n : OmNode) : n ∈ subtreeNodes n := by
  match n with
  | .mk a cs => rw [subtreeNodes_mk]; exact List.mem_cons_self _ _

theorem mem_subtreeList_of_mem (cs : List OmNode) (c d : OmNode)
    (hc : c ∈ cs) (hd : d ∈ subtreeNodes c) : d ∈ subtreeList cs := by
  induction cs with
  | nil => cases hc
  | cons x rest ih =>
    rw [subtreeList_cons]
    cases hc with
    | head => exact List.mem_append_left _ hd
    | tail _ h => exact List.mem_append_right _ (ih h)

theorem mem_subtree_of_child (a : NodeAttrs) (cs : List OmNode) (c d : OmNode)
    (hc : c ∈ cs) (hd : d ∈ subtreeNodes c) : d ∈ subtreeNodes (.mk a cs) := by
  rw [subtreeNodes_mk]
  exact List.mem_cons_of_mem _ (mem_subtreeList_of_mem cs c d hc hd)

theorem childFilter_subset (cs : List OmNode) (c : OmNode)
    (h : c ∈ childFilter cs) : c ∈ cs :=
  (List.mem_filter.mp h).1

mutual
theorem visited_subset_subtree (n : OmNode) (m : OmNode)
    (h : m ∈ visitedNodes n) : m ∈ subtreeNodes n := by
  match n with
  | .mk a cs =>
    rw [visitedNodes_mk] at h
    rw [subtreeNodes_mk]
    by_cases hom : (!a.isOm) = true
    · rw [if_pos hom] at h; cases h
    · rw [if_neg hom] at h
      cases h with
      | head => exact List.mem_cons_self _ _
      | tail _ h' => exact List.mem_cons_of_mem _ (visitedList_subset_subtreeList cs m h')

theorem visitedList_subset_subtreeList (cs : List OmNode) (m : OmNode)
    (h : m ∈ visitedList cs) : m ∈ subtreeList cs := by
  match cs with
  | [] => rw [visitedList] at h; cases h
  | c :: rest =>
    rw [visitedList_cons] at h
    rw [subtreeList_cons]
    rcases List.mem_append.mp h with h1 | h2
    · by_cases hg : (!(c.attrs.isInputOrOutput && c.attrs.minimized)) = true
      · rw [if_pos hg] at h1
        exact List.mem_append_left _ (visited_subset_subtree c m h1)
      · rw [if_neg hg] at h1; cases h1
    · exact List.mem_append_right _ (visitedList_subset_subtreeList rest m h2)
end

theorem clearPath_mem_subtree (n p : OmNode) (h : ClearPath n p) :
    p ∈ subtreeNodes n := by
  induction h with
  | refl n => exact self_mem_subtreeNodes n
  | step n c p _ _ hc _ ih =>
    match n with
    | .mk a cs =>
      exact mem_subtree_of_child a cs c p (childFilter_subset _ _ hc) ih

mutual
theorem subtree_trans (n p d : OmNode) (hp : p ∈ subtreeNodes n)
    (hd : d ∈ subtreeNodes p) : d ∈ subtreeNodes n := by
  match n with
  | .mk a cs =>
    rw [subtreeNodes_mk] at hp
    cases hp with
    | head => exact hd
    | tail _ hp' =>
      rw [subtreeNodes_mk]
      exact List.mem_cons_of_mem _ (subtreeList_trans cs p d hp' hd)

theorem subtreeList_trans (cs : List OmNode) (p d : OmNode)
    (hp : p ∈ subtreeList cs) (hd : d ∈ subtreeNodes p) : d ∈ subtreeList cs := by
  match cs with
  | [] => rw [subtreeList] at hp; cases hp
  | x :: rest =>
    rw [subtreeList_cons] at hp ⊢
    rcases List.mem_append.mp hp with h1 | h2
    · exact List.mem_append_left _ (subtree_trans x p d h1 hd)
    · exact List.mem_append_right _ (subtreeList_trans rest p d h2 hd)
end

theorem nodeIds_subset (l l' : List OmNode) (h : ∀ m ∈ l, m ∈ l') (i : ℕ)
    (hi : i ∈ nodeIds l) : i ∈ nodeIds l' := by
  rcases List.mem_map.mp hi with ⟨m, hm, rfl⟩
  exact List.mem_map_of_mem _ (h m hm)

theorem sum_map_div (l : List OmNode) (f : OmNode → ℚ) (t : ℚ) :
    (l.map (fun c => f c / t)).sum = (l.map f).sum / t := by
  induction l with
  | nil => simp
  | cons c rest ih => simp [ih, add_div]

theorem filter_vis_sum (l : List OmNode)
    (h : ∀ c ∈ l, c.attrs.isVisible = false → c.attrs.numLeaves = 0) :
    ((l.filter (fun c => c.attrs.isVisible)).map (fun c => c.attrs.numLeaves)).sum
      = (l.map (fun c => c.attrs.numLeaves)).sum := by
  induction l with
  | nil => simp
  | cons c rest ih =>
    have hrest : ∀ x ∈ rest, x.attrs.isVisible = false → x.attrs.numLeaves = 0 :=
      fun x hx => h x (List.mem_cons_of_mem _ hx)
    rw [List.filter_cons]
    cases hv : c.attrs.isVisible with
    | true =>
      simp only [hv, if_true, List.map_cons, List.sum_cons, ih hrest]
    | false =>
      have hz : c.attrs.numLeaves = 0 := h c (List.mem_cons_self _ _) hv
      simp only [hv, Bool.false_eq_true, if_false, List.map_cons, List.sum_cons,
        ih hrest, hz, zero_add]

theorem visitedSum_nonneg (cs : List OmNode)
    (h : ∀ c ∈ cs, 0 ≤ c.attrs.numLeaves) : 0 ≤ visitedSum cs := by
  unfold visitedSum
  apply List.sum_nonneg
  intro q hq
  rcases List.mem_map.mp hq with ⟨c, hc, rfl⟩
  exact h c (childFilter_subset cs c hc)

theorem childFilter_cons_pos (c : OmNode) (rest : List OmNode)
    (hg : (!(c.attrs.isInputOrOutput && c.attrs.minimized)) = true) :
    childFilter (c :: rest) = c :: childFilter rest := by
  unfold childFilter
  rw [List.filter_cons]
  simp only [hg, if_true]

theorem childFilter_cons_neg (c : OmNode) (rest : List OmNode)
    (hg : ¬(!(c.attrs.isInputOrOutput && c.attrs.minimized)) = true) :
    childFilter (c :: rest) = childFilter rest := by
  have hb : (!(c.attrs.isInputOrOutput && c.attrs.minimized)) = false := by
    cases hx : (!(c.attrs.isInputOrOutput && c.attrs.minimized))
    · rfl
    · exact absurd hx hg
  unfold childFilter
  rw [List.filter_cons]
  simp only [hb, Bool.false_eq_true, if_false]

theorem visitedSum_cons_pos (c : OmNode) (rest : List OmNode)
    (hg : (!(c.attrs.isInputOrOutput && c.attrs.minimized)) = true) :
    visitedSum (c :: rest) = c.attrs.numLeaves + visitedSum rest := by
  unfold visitedSum
  rw [childFilter_cons_pos c rest hg, List.map_cons, List.sum_cons]

theorem visitedSum_cons_neg (c : OmNode) (rest : List OmNode)
    (hg : ¬(!(c.attrs.isInputOrOutput && c.attrs.minimized)) = true) :
    visitedSum (c :: rest) = visitedSum rest := by
  unfold visitedSum
  rw [childFilter_cons_neg c rest hg]

theorem rectAt_of_storeGet (s : Store) (i : ℕ) (r : Rect)
    (h : storeGet s i = some r) : rectAt s i = r := by
  simp [rectAt, h]

theorem colAt_ok (ctx : LayoutCtx) (h : CtxOK ctx) (i : ℕ) :
    colOK ctx.sz.solverTreeWidth (colAt ctx.solverCols i) := by
  by_cases hlen : i < ctx.solverCols.length
  · have hmem : colAt ctx.solverCols i ∈ ctx.solverCols := by
      unfold colAt
      rw [List.getD_eq_getElem _ _ hlen]
      exact ctx.solverCols.getElem_mem hlen
    exact h.cols _ hmem
  · have hz : colAt ctx.solverCols i = ⟨0, 0⟩ := by
      unfold colAt
      exact List.getD_eq_default _ _ (by omega)
    rw [hz]
    exact ⟨le_refl 0, le_refl 0, by simpa using le_of_lt h.wPos⟩

theorem clearRect_inBox (ctx : LayoutCtx) (a : NodeAttrs) (lc : ℚ)
    (h : CtxOK ctx) (hlc : 0 ≤ lc) (hnl : 0 ≤ a.numLeaves)
    (hfit : lc + a.numLeaves ≤ ctx.totalLeaves) :
    inBox (clearRect ctx a lc) := by
  obtain ⟨hl0, hw0, hlw⟩ := colAt_ok ctx h a.depth
  have hW := h.wPos
  have hT := h.tPos
  unfold clearRect inBox
  have hx0 : 0 ≤ (colAt ctx.solverCols a.depth).location / ctx.sz.solverTreeWidth :=
    div_nonneg hl0 (le_of_lt hW)
  have hx1 : (colAt ctx.solverCols a.depth).location / ctx.sz.solverTreeWidth ≤ 1 := by
    rw [div_le_one hW]
    linarith
  have hy0 : 0 ≤ lc / ctx.totalLeaves := div_nonneg hlc (le_of_lt hT)
  have hyh : lc / ctx.totalLeaves + a.numLeaves / ctx.totalLeaves ≤ 1 := by
    rw [div_add_div_same, div_le_one hT]
    exact hfit
  have hh0 : 0 ≤ a.numLeaves / ctx.totalLeaves := div_nonneg hnl (le_of_lt hT)
  refine ⟨hx0, hy0, ?_, hh0, ?_, hyh⟩
  · split_ifs
    · exact div_nonneg hw0 (le_of_lt hW)
    · linarith
  · split_ifs
    · rw [div_add_div_same, div_le_one hW]
      exact hlw
    · linarith

theorem anchorRect_inBox (ctx : LayoutCtx) (w : NodeRef) (lc : ℚ)
    (h : CtxOK ctx) (hlc : 0 ≤ lc) (hnl : 0 ≤ w.numLeaves)
    (hfit : lc + w.numLeaves ≤ ctx.totalLeaves) :
    inBox (anchorRect ctx w lc) := by
  obtain ⟨hl0, hw0, hlw⟩ := colAt_ok ctx h w.depth
  have hW := h.wPos
  have hT := h.tPos
  unfold anchorRect inBox
  have hx0 : 0 ≤ (colAt ctx.solverCols w.depth).location / ctx.sz.solverTreeWidth :=
    div_nonneg hl0 (le_of_lt hW)
  have hx1 : (colAt ctx.solverCols w.depth).location / ctx.sz.solverTreeWidth ≤ 1 := by
    rw [div_le_one hW]
    linarith
  have hy0 : 0 ≤ lc / ctx.totalLeaves := div_nonneg hlc (le_of_lt hT)
  have hyh : lc / ctx.totalLeaves + w.numLeaves / ctx.totalLeaves ≤ 1 := by
    rw [div_add_div_same, div_le_one hT]
    exact hfit
  exact ⟨hx0, hy0, by linarith, div_nonneg hnl (le_of_lt hT), by linarith, hyh⟩

theorem visRect_self (ctx : LayoutCtx) (a : NodeAttrs) (lc : ℚ) (sd : Store) :
    visRect ctx a lc a.ref sd = clearRect ctx a lc := by
  simp [visRect, clearRect, NodeAttrs.ref]

theorem visRect_anchored (ctx : LayoutCtx) (a : NodeAttrs) (lc : ℚ) (w : NodeRef)
    (sd : Store) (hne : w.id ≠ a.id)
    (hst : storeGet sd w.id = some (anchorRect ctx w lc))
    (hbr : (a.subsystemChildren && !a.minimized) = false) :
    visRect ctx a lc w sd = anchorRect ctx w lc := by
  have hb : (w.id == a.id) = false := beq_eq_false_iff_ne.mpr hne
  simp [visRect, anchorRect, hb, hbr, rectAt, hst]

theorem clearRect_eq_anchorRect (ctx : LayoutCtx) (a : NodeAttrs) (lc : ℚ)
    (hbr : (a.subsystemChildren && !a.minimized) = false) :
    clearRect ctx a lc = anchorRect ctx a.ref lc := by
  simp [clearRect, anchorRect, NodeAttrs.ref, hbr]

theorem beqNoneNone : ((none : Option NodeRef) == none) = true := rfl

theorem beqSomeNone (w : NodeRef) : ((some w : Option NodeRef) == none) = false := rfl

theorem anchorOut_false (a : NodeAttrs) (emp : Option NodeRef) :
    anchorOut a false emp = emp := by
  simp [anchorOut]

theorem anchorOut_true_leaf (a : NodeAttrs) (emp : Option NodeRef)
    (h : a.isVisibleLeaf = true) : anchorOut a true emp = some a.ref := by
  simp [anchorOut, h]

theorem anchorOut_true_nonleaf (a : NodeAttrs) (emp : Option NodeRef)
    (h1 : a.isVisibleLeaf = false) (h2 : a.filtered = false) :
    anchorOut a true emp = emp := by
  simp [anchorOut, h1, h2]

theorem anchorOut_getD_self (a : NodeAttrs)
    (hfp : a.filterParent = none) :
    (anchorOut a true none).getD a.ref = a.ref := by
  unfold anchorOut
  split_ifs <;> simp [hfp]

theorem rectAt_congr (s s' : Store) (i : ℕ) (h : storeGet s i = storeGet s' i) :
    rectAt s i = rectAt s' i := by
  simp [rectAt, h]

theorem child_mem_subtree (p c : OmNode) (h : c ∈ p.children) :
    c ∈ subtreeNodes p := by
  match p with
  | .mk b ds =>
    rw [subtreeNodes_mk]
    exact List.mem_cons_of_mem _
      (mem_subtreeList_of_mem ds c c h (self_mem_subtreeNodes c))

theorem partitionEq_congr (s s' : Store) (p : OmNode)
    (hp : storeGet s p.attrs.id = storeGet s' p.attrs.id)
    (hc : ∀ c ∈ p.children, storeGet s c.attrs.id = storeGet s' c.attrs.id)
    (h : partitionEq s p) : partitionEq s' p := by
  unfold partitionEq at h ⊢
  have hmap :
      ((childFilter p.children).filter (fun c => c.attrs.isVisible)).map
          (fun c => (rectAt s' c.attrs.id).height)
        = ((childFilter p.children).filter (fun c => c.attrs.isVisible)).map
          (fun c => (rectAt s c.attrs.id).height) := by
    apply List.map_congr_left
    intro c hcm
    have hcc : c ∈ p.children := childFilter_subset _ _ (List.mem_of_mem_filter hcm)
    rw [rectAt_congr s' s _ (hc c hcc).symm]
  rw [hmap, h, rectAt_congr s s' _ hp]

/-- The rectangle assigned to a visible, anchorless node: with no anchor
(and no filter parent) the work node is the node itself, so it receives its
`clearRect`; the value survives the recursion over the children. -/
theorem walk_top_clear (ctx : LayoutCtx) (a : NodeAttrs) (cs : List OmNode)
    (lc : ℚ) (icz : Bool) (st : WalkState)
    (hom : ¬(!a.isOm) = true)
    (hicz : (icz || (a.id == ctx.zoomedId)) = true)
    (hfp : a.filterParent = none)
    (hvis : a.isVisible = true)
    (hna : a.id ∉ nodeIds (visitedList cs)) :
    storeGet (walk ctx (.mk a cs) lc icz none st).solverDims a.id
      = some (clearRect ctx a lc) := by
  rw [walk_mk, if_neg hom, hicz]
  rw [walkChildren_untouched _ _ _ _ _ _ _ hna, assignStage_solverDims,
    storeGet_storeSet_self]
  have hwn : (anchorStage a true none st).2.getD a.ref = a.ref := by
    rw [anchorStage]
    simp only [beqNoneNone, Bool.and_self]
    exact anchorOut_getD_self a hfp
  rw [hwn]
  have hv : ¬(!a.isVisible) = true := by simp [hvis]
  rw [assignRect, if_neg hv, preserveDimsStage_solverDims, anchorStage,
    anchorLists_solverDims, visRect_self]

/-- The rectangle assigned to a visible node below an anchor `w`: the work
node is `w`, whose stored rectangle supplies `anchorX`, so the node
receives the anchor rectangle itself. -/
theorem walk_top_anchored (ctx : LayoutCtx) (a : NodeAttrs) (cs : List OmNode)
    (lc : ℚ) (icz : Bool) (st : WalkState) (w : NodeRef)
    (hom : ¬(!a.isOm) = true)
    (hvis : a.isVisible = true)
    (hna : a.id ∉ nodeIds (visitedList cs))
    (hwne : w.id ≠ a.id)
    (hst : storeGet st.solverDims w.id = some (anchorRect ctx w lc))
    (hbr : (a.subsystemChildren && !a.minimized) = false) :
    storeGet (walk ctx (.mk a cs) lc icz (some w) st).solverDims a.id
      = some (anchorRect ctx w lc) := by
  rw [walk_mk, if_neg hom]
  rw [walkChildren_untouched _ _ _ _ _ _ _ hna, assignStage_solverDims,
    storeGet_storeSet_self]
  have hsnd : (anchorStage a (icz || (a.id == ctx.zoomedId)) (some w) st).2 = some w := by
    rw [anchorStage]
    simp only [beqSomeNone, Bool.false_and]
    exact anchorOut_false a (some w)
  rw [hsnd]
  have hv : ¬(!a.isVisible) = true := by simp [hvis]
  rw [assignRect, if_neg hv]
  simp only [Option.getD_some]
  apply congrArg
  apply visRect_anchored ctx a lc w _ hwne _ hbr
  rw [preserveDimsStage_solverDims, anchorStage, anchorLists_solverDims]
  exact hst

theorem nodeIds_append (l l' : List OmNode) :
    nodeIds (l ++ l') = nodeIds l ++ nodeIds l' := by
  simp [nodeIds]

theorem nodeIds_cons (x : OmNode) (l : List OmNode) :
    nodeIds (x :: l) = x.attrs.id :: nodeIds l := by
  simp [nodeIds]

theorem mem_nodeIds (l : List OmNode) (m : OmNode) (h : m ∈ l) :
    m.attrs.id ∈ nodeIds l := List.mem_map_of_mem _ h

theorem children_mk (a : NodeAttrs) (cs : List OmNode) :
    (OmNode.mk a cs).children = cs := rfl

theorem attrs_mk (a : NodeAttrs) (cs : List OmNode) :
    (OmNode.mk a cs).attrs = a := rfl

mutual
theorem walkMain (ctx : LayoutCtx) (n : OmNode) (lc : ℚ) (icz : Bool)
    (emp : Option NodeRef) (st : WalkState)
    (hctx : CtxOK ctx)
    (hwf : ∀ m ∈ subtreeNodes n, NodeWF m)
    (hnd : (nodeIds (subtreeNodes n)).Nodup)
    (hlc : 0 ≤ lc)
    (hicz : (icz || (n.attrs.id == ctx.zoomedId)) = true)
    (hnone : emp = none → lc + n.attrs.numLeaves ≤ ctx.totalLeaves)
    (hanch : ∀ w, emp = some w → AnchorInv ctx (subtreeNodes n) lc w st) :
    (∀ m ∈ visitedNodes n, m.attrs.isVisible = true →
      ∃ r, storeGet (walk ctx n lc icz emp st).solverDims m.attrs.id = some r ∧ inBox r)
    ∧ (emp = none → n.attrs.isVisible = true →
        storeGet (walk ctx n lc icz emp st).solverDims n.attrs.id
          = some (clearRect ctx n.attrs lc))
    ∧ (emp = none → ∀ p, ClearPath n p → p.attrs.isVisible = true →
        p.attrs.isVisibleLeaf = false →
        partitionEq (walk ctx n lc icz emp st).solverDims p)
    ∧ (emp = none → ∀ w, ClearPath n w → w.attrs.isVisibleLeaf = true →
        ∀ d ∈ visitedNodes w, d.attrs.isVisible = true →
          storeGet (walk ctx n lc icz emp st).solverDims d.attrs.id
            = storeGet (walk ctx n lc icz emp st).solverDims w.attrs.id)
    ∧ (∀ w, emp = some w → ∀ m ∈ visitedNodes n, m.attrs.isVisible = true →
        storeGet (walk ctx n lc icz emp st).solverDims m.attrs.id
          = some (anchorRect ctx w lc)) := by
  match n with
  | .mk a cs =>
    have hwfn : NodeWF (.mk a cs) := hwf _ (self_mem_subtreeNodes _)
    have homa : a.isOm = true := hwfn.isOm
    have hom : ¬(!a.isOm) = true := by simp [homa]
    have hicz2 : (icz || (a.id == ctx.zoomedId)) = true := hicz
    have hfp : a.filterParent = none := hwfn.noFilterParent
    have hfil : a.filtered = false := hwfn.notFiltered
    have hanl : (0 : ℚ) ≤ a.numLeaves := hwfn.nlNonneg
    have hndsplit : a.id ∉ nodeIds (subtreeList cs) ∧ (nodeIds (subtreeList cs)).Nodup := by
      rw [subtreeNodes_mk, nodeIds_cons] at hnd
      exact List.nodup_cons.mp hnd
    have hwf' : ∀ m ∈ subtreeList cs, NodeWF m := fun m hm =>
      hwf m (by rw [subtreeNodes_mk]; exact List.mem_cons_of_mem _ hm)
    have hna : a.id ∉ nodeIds (visitedList cs) := fun hx =>
      hndsplit.1 (nodeIds_subset _ _ (fun m hm => visitedList_subset_subtreeList cs m hm) _ hx)
    cases emp with
    | none =>
      have hfit : lc + a.numLeaves ≤ ctx.totalLeaves := hnone rfl
      have htop0 : a.isVisible = true →
          storeGet (walk ctx (.mk a cs) lc icz none st).solverDims a.id
            = some (clearRect ctx a lc) := fun hv =>
        walk_top_clear ctx a cs lc icz st hom hicz2 hfp hv hna
      cases hleaf : a.isVisibleLeaf with
      | false =>
        have hsum : a.numLeaves = visitedSum cs := hwfn.sumLeaves hleaf
        have hwalk : walk ctx (.mk a cs) lc icz none st
            = walkChildren ctx cs lc true none
                (assignStage ctx a lc a.ref
                  (preserveDimsStage a (anchorLists a true st))) := by
          rw [walk_mk, if_neg hom, hicz2]
          have h1 : (anchorStage a true none st).1 = anchorLists a true st := by
            rw [anchorStage]
            simp only [beqNoneNone, Bool.and_self]
          have h2 : (anchorStage a true none st).2 = none := by
            rw [anchorStage]
            simp only [beqNoneNone, Bool.and_self]
            exact anchorOut_true_nonleaf a none hleaf hfil
          rw [h1, h2]
          simp only [Option.getD_none]
        have CH := walkChildrenMain ctx cs lc true none
          (assignStage ctx a lc a.ref (preserveDimsStage a (anchorLists a true st)))
          hctx hwf' hndsplit.2 hlc rfl
          (fun _ => by rw [← hsum]; exact hfit)
          (fun w hw => nomatch hw)
        rw [hwalk]
        rw [hwalk] at htop0
        refine ⟨?_, ?_, ?_, ?_, ?_⟩
        · intro m hm hmv
          rw [visitedNodes_mk, if_neg hom] at hm
          cases hm with
          | head =>
            exact ⟨clearRect ctx a lc, htop0 hmv,
              clearRect_inBox ctx a lc hctx hlc hanl hfit⟩
          | tail _ hm' => exact CH.1 m hm' hmv
        · intro _ hv
          exact htop0 hv
        · intro _ p hpath hpv hpl
          cases hpath with
          | refl =>
            simp only [partitionEq, children_mk, attrs_mk]
            have hmap :
                ((childFilter cs).filter (fun c => c.attrs.isVisible)).map
                    (fun c => (rectAt (walkChildren ctx cs lc true none
                      (assignStage ctx a lc a.ref (preserveDimsStage a
                        (anchorLists a true st)))).solverDims c.attrs.id).height)
                  = ((childFilter cs).filter (fun c => c.attrs.isVisible)).map
                    (fun c => c.attrs.numLeaves / ctx.totalLeaves) := by
              apply List.map_congr_left
              intro c hcm
              have hcf : c ∈ childFilter cs := List.mem_of_mem_filter hcm
              have hcv : c.attrs.isVisible = true := (List.mem_filter.mp hcm).2
              obtain ⟨r, hr, hh⟩ := CH.2.1 rfl c hcf hcv
              rw [rectAt_of_storeGet _ _ _ hr, hh]
            rw [hmap, sum_map_div,
              rectAt_of_storeGet _ _ _ (htop0 hpv)]
            have hz : ∀ c ∈ childFilter cs, c.attrs.isVisible = false →
                c.attrs.numLeaves = 0 := by
              intro c hcf hcv
              have hc : NodeWF c := hwf' c
                (mem_subtreeList_of_mem cs c c (childFilter_subset cs c hcf)
                  (self_mem_subtreeNodes c))
              exact hc.hiddenZero hcv
            rw [filter_vis_sum (childFilter cs) hz]
            have hsum2 : ((childFilter cs).map (fun c => c.attrs.numLeaves)).sum
                = a.numLeaves := hsum.symm
            rw [hsum2]
            rfl
          | step _ c p hom2 hnleaf2 hcin hsub =>
            exact CH.2.2.1 rfl c hcin p hsub hpv hpl
        · intro _ w hpath hwleaf d hd hdv
          cases hpath with
          | refl =>
            have hx : a.isVisibleLeaf = true := hwleaf
            rw [hleaf] at hx
            cases hx
          | step _ c w hom2 hnleaf2 hcin hsub =>
            exact CH.2.2.2.1 rfl c hcin w hsub hwleaf d hd hdv
        · intro w hw
          nomatch hw
      | true =>
        have hvisa : a.isVisible = true := hwfn.leafVisible hleaf
        have hbrA : (a.subsystemChildren && !a.minimized) = false :=
          hwfn.leafBranch hleaf _ (self_mem_subtreeNodes _) hvisa
        have hwalk : walk ctx (.mk a cs) lc icz none st
            = walkChildren ctx cs lc true (some a.ref)
                (assignStage ctx a lc a.ref
                  (preserveDimsStage a (anchorLists a true st))) := by
          rw [walk_mk, if_neg hom, hicz2]
          have h1 : (anchorStage a true none st).1 = anchorLists a true st := by
            rw [anchorStage]
            simp only [beqNoneNone, Bool.and_self]
          have h2 : (anchorStage a true none st).2 = some a.ref := by
            rw [anchorStage]
            simp only [beqNoneNone, Bool.and_self]
            exact anchorOut_true_leaf a none hleaf
          rw [h1, h2]
          simp only [Option.getD_some]
        have hstored : storeGet (assignStage ctx a lc a.ref
            (preserveDimsStage a (anchorLists a true st))).solverDims a.ref.id
            = some (anchorRect ctx a.ref lc) := by
          rw [assignStage_solverDims]
          have hid : a.ref.id = a.id := rfl
          rw [hid, storeGet_storeSet_self]
          have hv : ¬(!a.isVisible) = true := by simp [hvisa]
          rw [assignRect, if_neg hv, preserveDimsStage_solverDims,
            anchorLists_solverDims, visRect_self, clearRect_eq_anchorRect ctx a lc hbrA]
        have hanch' : ∀ w', some a.ref = some w' →
            AnchorInv ctx (subtreeList cs) lc w' (assignStage ctx a lc a.ref
              (preserveDimsStage a (anchorLists a true st))) := by
          intro w' hw'
          injection hw' with h
          subst h
          exact ⟨hndsplit.1, hwfn.nlNonneg, hfit, hstored,
            fun d hd hdv => hwfn.leafBranch hleaf d
              (by rw [subtreeNodes_mk]; exact List.mem_cons_of_mem _ hd) hdv⟩
        have CH := walkChildrenMain ctx cs lc true (some a.ref)
          (assignStage ctx a lc a.ref (preserveDimsStage a (anchorLists a true st)))
          hctx hwf' hndsplit.2 hlc rfl (fun h => nomatch h) hanch'
        rw [hwalk]
        rw [hwalk] at htop0
        refine ⟨?_, ?_, ?_, ?_, ?_⟩
        · intro m hm hmv
          rw [visitedNodes_mk, if_neg hom] at hm
          cases hm with
          | head =>
            exact ⟨clearRect ctx a lc, htop0 hmv,
              clearRect_inBox ctx a lc hctx hlc hanl hfit⟩
          | tail _ hm' => exact CH.1 m hm' hmv
        · intro _ hv
          exact htop0 hv
        · intro _ p hpath hpv hpl
          cases hpath with
          | refl =>
            have hx : a.isVisibleLeaf = false := hpl
            rw [hleaf] at hx
            cases hx
          | step _ c p hom2 hnleaf2 hcin hsub =>
            have hx : a.isVisibleLeaf = false := hnleaf2
            rw [hleaf] at hx
            cases hx
        · intro _ w hpath hwleaf d hd hdv
          cases hpath with
          | refl =>
            rw [visitedNodes_mk, if_neg hom] at hd
            cases hd with
            | head => rfl
            | tail _ hd' =>
              have hv1 := CH.2.2.2.2 a.ref rfl d hd' hdv
              have hv2 : storeGet (walkChildren ctx cs lc true (some a.ref)
                  (assignStage ctx a lc a.ref (preserveDimsStage a
                    (anchorLists a true st)))).solverDims a.id
                  = some (anchorRect ctx a.ref lc) := by
                rw [htop0 hvisa, clearRect_eq_anchorRect ctx a lc hbrA]
              exact hv1.trans hv2.symm
          | step _ c w hom2 hnleaf2 hcin hsub =>
            have hx : a.isVisibleLeaf = false := hnleaf2
            rw [hleaf] at hx
            cases hx
        · intro w hw
          nomatch hw
    | some w =>
      have hA := hanch w rfl
      have hwa : w.id ≠ a.id := by
        intro h
        apply hA.notInScope
        rw [subtreeNodes_mk, nodeIds_cons, h]
        exact List.mem_cons_self _ _
      have hwnotin : w.id ∉ nodeIds (subtreeList cs) := fun hx => by
        apply hA.notInScope
        rw [subtreeNodes_mk, nodeIds_cons]
        exact List.mem_cons_of_mem _ hx
      have hbrn : a.isVisible = true → (a.subsystemChildren && !a.minimized) = false :=
        fun hv => hA.branchB _ (self_mem_subtreeNodes _) hv
      have hwalk : walk ctx (.mk a cs) lc icz (some w) st
          = walkChildren ctx cs lc (icz || (a.id == ctx.zoomedId)) (some w)
              (assignStage ctx a lc w (preserveDimsStage a
                (anchorLists a false st))) := by
        rw [walk_mk, if_neg hom]
        have h1 : (anchorStage a (icz || (a.id == ctx.zoomedId)) (some w) st).1
            = anchorLists a false st := by
          rw [anchorStage]
          simp only [beqSomeNone, Bool.false_and]
        have h2 : (anchorStage a (icz || (a.id == ctx.zoomedId)) (some w) st).2
            = some w := by
          rw [anchorStage]
          simp only [beqSomeNone, Bool.false_and]
          exact anchorOut_false a (some w)
        rw [h1, h2]
        simp only [Option.getD_some]
      rw [hicz2] at hwalk
      have hstored3 : storeGet (assignStage ctx a lc w (preserveDimsStage a
          (anchorLists a false st))).solverDims w.id
          = some (anchorRect ctx w lc) := by
        rw [assignStage_solverDims, storeGet_storeSet_ne _ _ _ _ hwa,
          preserveDimsStage_solverDims, anchorLists_solverDims]
        exact hA.stored
      have hanch' : ∀ w', some w = some w' → AnchorInv ctx (subtreeList cs) lc w'
          (assignStage ctx a lc w (preserveDimsStage a (anchorLists a false st))) := by
        intro w' hw'
        injection hw' with h
        subst h
        exact ⟨hwnotin, hA.nlNonneg, hA.fits, hstored3,
          fun d hd hdv => hA.branchB d
            (by rw [subtreeNodes_mk]; exact List.mem_cons_of_mem _ hd) hdv⟩
      have CH := walkChildrenMain ctx cs lc true (some w)
        (assignStage ctx a lc w (preserveDimsStage a (anchorLists a false st)))
        hctx hwf' hndsplit.2 hlc rfl (fun h => nomatch h) hanch'
      have htopA : a.isVisible = true →
          storeGet (walk ctx (.mk a cs) lc icz (some w) st).solverDims a.id
            = some (anchorRect ctx w lc) := fun hv =>
        walk_top_anchored ctx a cs lc icz st w hom hv hna hwa hA.stored (hbrn hv)
      rw [hwalk]
      rw [hwalk] at htopA
      refine ⟨?_, ?_, ?_, ?_, ?_⟩
      · intro m hm hmv
        rw [visitedNodes_mk, if_neg hom] at hm
        cases hm with
        | head =>
          exact ⟨anchorRect ctx w lc, htopA hmv,
            anchorRect_inBox ctx w lc hctx hlc hA.nlNonneg hA.fits⟩
        | tail _ hm' => exact CH.1 m hm' hmv
      · intro h; nomatch h
      · intro h; nomatch h
      · intro h; nomatch h
      · intro w' hw' m hm hmv
        injection hw' with h
        subst h
        rw [visitedNodes_mk, if_neg hom] at hm
        cases hm with
        | head => exact htopA hmv
        | tail _ hm' => exact CH.2.2.2.2 w rfl m hm' hmv

theorem walkChildrenMain (ctx : LayoutCtx) (cs : List OmNode) (lc : ℚ) (icz : Bool)
    (emp : Option NodeRef) (st : WalkState)
    (hctx : CtxOK ctx)
    (hwf : ∀ m ∈ subtreeList cs, NodeWF m)
    (hnd : (nodeIds (subtreeList cs)).Nodup)
    (hlc : 0 ≤ lc)
    (hicz : icz = true)
    (hnone : emp = none → lc + visitedSum cs ≤ ctx.totalLeaves)
    (hanch : ∀ w, emp = some w → AnchorInv ctx (subtreeList cs) lc w st) :
    (∀ m ∈ visitedList cs, m.attrs.isVisible = true →
      ∃ r, storeGet (walkChildren ctx cs lc icz emp st).solverDims m.attrs.id
        = some r ∧ inBox r)
    ∧ (emp = none → ∀ c ∈ childFilter cs, c.attrs.isVisible = true →
        ∃ r, storeGet (walkChildren ctx cs lc icz emp st).solverDims c.attrs.id
          = some r ∧ r.height = c.attrs.numLeaves / ctx.totalLeaves)
    ∧ (emp = none → ∀ c ∈ childFilter cs, ∀ p, ClearPath c p →
        p.attrs.isVisible = true → p.attrs.isVisibleLeaf = false →
        partitionEq (walkChildren ctx cs lc icz emp st).solverDims p)
    ∧ (emp = none → ∀ c ∈ childFilter cs, ∀ w, ClearPath c w →
        w.attrs.isVisibleLeaf = true →
        ∀ d ∈ visitedNodes w, d.attrs.isVisible = true →
          storeGet (walkChildren ctx cs lc icz emp st).solverDims d.attrs.id
            = storeGet (walkChildren ctx cs lc icz emp st).solverDims w.attrs.id)
    ∧ (∀ w, emp = some w → ∀ m ∈ visitedList cs, m.attrs.isVisible = true →
        storeGet (walkChildren ctx cs lc icz emp st).solverDims m.attrs.id
          = some (anchorRect ctx w lc)) := by
  subst hicz
  match cs with
  | [] =>
    refine ⟨?_, ?_, ?_, ?_, ?_⟩
    · intro m hm
      rw [visitedList] at hm
      cases hm
    · intro _ c hc
      rw [show childFilter [] = [] from rfl] at hc
      cases hc
    · intro _ c hc
      rw [show childFilter [] = [] from rfl] at hc
      cases hc
    · intro _ c hc
      rw [show childFilter [] = [] from rfl] at hc
      cases hc
    · intro w hw m hm
      rw [visitedList] at hm
      cases hm
  | c :: rest =>
    have hwfc : ∀ m ∈ subtreeNodes c, NodeWF m := fun m hm =>
      hwf m (by rw [subtreeList_cons]; exact List.mem_append_left _ hm)
    have hwfr : ∀ m ∈ subtreeList rest, NodeWF m := fun m hm =>
      hwf m (by rw [subtreeList_cons]; exact List.mem_append_right _ hm)
    have hndsplit : (nodeIds (subtreeNodes c)).Nodup
        ∧ (nodeIds (subtreeList rest)).Nodup
        ∧ (nodeIds (subtreeNodes c)).Disjoint (nodeIds (subtreeList rest)) := by
      rw [subtreeList_cons, nodeIds_append] at hnd
      exact List.nodup_append.mp hnd
    have hwfcc : NodeWF c := hwfc c (self_mem_subtreeNodes c)
    have hfpc : c.attrs.filterParent = none := hwfcc.noFilterParent
    by_cases hg : (!(c.attrs.isInputOrOutput && c.attrs.minimized)) = true
    case pos =>
      cases emp with
      | none =>
        have hstep : walkChildren ctx (c :: rest) lc true none st
            = walkChildren ctx rest (lc + c.attrs.numLeaves) true none
                (walk ctx c lc true none st) := by
          rw [walkChildren_cons, if_pos hg, hfpc]
          rfl
        have hfitAll : lc + visitedSum (c :: rest) ≤ ctx.totalLeaves := hnone rfl
        rw [visitedSum_cons_pos c rest hg] at hfitAll
        have hrestnl : ∀ x ∈ rest, 0 ≤ x.attrs.numLeaves := fun x hx =>
          (hwfr x (mem_subtreeList_of_mem rest x x hx (self_mem_subtreeNodes x))).nlNonneg
        have hvsr : 0 ≤ visitedSum rest := visitedSum_nonneg rest hrestnl
        have hcnl : 0 ≤ c.attrs.numLeaves := hwfcc.nlNonneg
        have hfitc : lc + c.attrs.numLeaves ≤ ctx.totalLeaves := by linarith
        have W1 := walkMain ctx c lc true none st hctx hwfc hndsplit.1 hlc rfl
          (fun _ => hfitc) (fun w hw => nomatch hw)
        have W2 := walkChildrenMain ctx rest (lc + c.attrs.numLeaves) true none
          (walk ctx c lc true none st) hctx hwfr hndsplit.2.1 (by linarith) rfl
          (fun _ => by linarith) (fun w hw => nomatch hw)
        have hpres : ∀ i ∈ nodeIds (subtreeNodes c),
            storeGet (walkChildren ctx rest (lc + c.attrs.numLeaves) true none
              (walk ctx c lc true none st)).solverDims i
            = storeGet (walk ctx c lc true none st).solverDims i := by
          intro i hi
          apply walkChildren_untouched
          intro hx
          exact hndsplit.2.2 hi
            (nodeIds_subset _ _ (fun m hm => visitedList_subset_subtreeList rest m hm) _ hx)
        rw [hstep]
        refine ⟨?_, ?_, ?_, ?_, ?_⟩
        · intro m hm hmv
          rw [visitedList_cons, if_pos hg] at hm
          rcases List.mem_append.mp hm with hmc | hmr
          · obtain ⟨r, hr, hbox⟩ := W1.1 m hmc hmv
            refine ⟨r, ?_, hbox⟩
            rw [hpres m.attrs.id (mem_nodeIds _ _ (visited_subset_subtree c m hmc))]
            exact hr
          · exact W2.1 m hmr hmv
        · intro _ c' hc' hcv
          rw [childFilter_cons_pos c rest hg] at hc'
          cases hc' with
          | head =>
            refine ⟨clearRect ctx c.attrs lc, ?_, rfl⟩
            rw [hpres c.attrs.id (mem_nodeIds _ _ (self_mem_subtreeNodes c))]
            exact W1.2.1 rfl hcv
          | tail _ hc'' => exact W2.2.1 rfl c' hc'' hcv
        · intro _ c' hc' p hpath hpv hpl
          rw [childFilter_cons_pos c rest hg] at hc'
          cases hc' with
          | head =>
            have hP := W1.2.2.1 rfl p hpath hpv hpl
            have hpc : p ∈ subtreeNodes c := clearPath_mem_subtree c p hpath
            exact partitionEq_congr _ _ p
              (hpres p.attrs.id (mem_nodeIds _ _ hpc)).symm
              (fun cc hcc => (hpres cc.attrs.id (mem_nodeIds _ _
                (subtree_trans c p cc hpc (child_mem_subtree p cc hcc)))).symm)
              hP
          | tail _ hc'' => exact W2.2.2.1 rfl c' hc'' p hpath hpv hpl
        · intro _ c' hc' w hpath hwleaf d hd hdv
          rw [childFilter_cons_pos c rest hg] at hc'
          cases hc' with
          | head =>
            have heq := W1.2.2.2.1 rfl w hpath hwleaf d hd hdv
            have hwc : w ∈ subtreeNodes c := clearPath_mem_subtree c w hpath
            have hdc : d ∈ subtreeNodes c :=
              subtree_trans c w d hwc (visited_subset_subtree w d hd)
            rw [hpres d.attrs.id (mem_nodeIds _ _ hdc),
              hpres w.attrs.id (mem_nodeIds _ _ hwc)]
            exact heq
          | tail _ hc'' => exact W2.2.2.2.1 rfl c' hc'' w hpath hwleaf d hd hdv
        · intro w hw
          nomatch hw
      | some w =>
        have hA := hanch w rfl
        have hAc : AnchorInv ctx (subtreeNodes c) lc w st :=
          ⟨fun hx => hA.notInScope (by
              rw [subtreeList_cons, nodeIds_append]
              exact List.mem_append_left _ hx),
           hA.nlNonneg, hA.fits, hA.stored,
           fun d hd hdv => hA.branchB d (by
              rw [subtreeList_cons]
              exact List.mem_append_left _ hd) hdv⟩
        have hstep : walkChildren ctx (c :: rest) lc true (some w) st
            = walkChildren ctx rest lc true (some w)
                (walk ctx c lc true (some w) st) := by
          rw [walkChildren_cons, if_pos hg, hfpc]
          rfl
        have W1 := walkMain ctx c lc true (some w) st hctx hwfc hndsplit.1 hlc rfl
          (fun h => nomatch h)
          (fun w' hw' => by injection hw' with h; subst h; exact hAc)
        have hwinc : w.id ∉ nodeIds (visitedNodes c) := fun hx =>
          hA.notInScope (by
            rw [subtreeList_cons, nodeIds_append]
            exact List.mem_append_left _
              (nodeIds_subset _ _ (fun m hm => visited_subset_subtree c m hm) _ hx))
        have hAr : AnchorInv ctx (subtreeList rest) lc w (walk ctx c lc true (some w) st) :=
          ⟨fun hx => hA.notInScope (by
              rw [subtreeList_cons, nodeIds_append]
              exact List.mem_append_right _ hx),
           hA.nlNonneg, hA.fits,
           by rw [walk_untouched _ _ _ _ _ _ _ hwinc]; exact hA.stored,
           fun d hd hdv => hA.branchB d (by
              rw [subtreeList_cons]
              exact List.mem_append_right _ hd) hdv⟩
        have W2 := walkChildrenMain ctx rest lc true (some w)
          (walk ctx c lc true (some w) st) hctx hwfr hndsplit.2.1 hlc rfl
          (fun h => nomatch h)
          (fun w' hw' => by injection hw' with h; subst h; exact hAr)
        have hpres : ∀ i ∈ nodeIds (subtreeNodes c),
            storeGet (walkChildren ctx rest lc true (some w)
              (walk ctx c lc true (some w) st)).solverDims i
            = storeGet (walk ctx c lc true (some w) st).solverDims i := by
          intro i hi
          apply walkChildren_untouched
          intro hx
          exact hndsplit.2.2 hi
            (nodeIds_subset _ _ (fun m hm => visitedList_subset_subtreeList rest m hm) _ hx)
        rw [hstep]
        refine ⟨?_, ?_, ?_, ?_, ?_⟩
        · intro m hm hmv
          rw [visitedList_cons, if_pos hg] at hm
          rcases List.mem_append.mp hm with hmc | hmr
          · obtain ⟨r, hr, hbox⟩ := W1.1 m hmc hmv
            refine ⟨r, ?_, hbox⟩
            rw [hpres m.attrs.id (mem_nodeIds _ _ (visited_subset_subtree c m hmc))]
            exact hr
          · exact W2.1 m hmr hmv
        · intro h; nomatch h
        · intro h; nomatch h
        · intro h; nomatch h
        · intro w' hw' m hm hmv
          injection hw' with h
          subst h
          rw [visitedList_cons, if_pos hg] at hm
          rcases List.mem_append.mp hm with hmc | hmr
          · rw [hpres m.attrs.id (mem_nodeIds _ _ (visited_subset_subtree c m hmc))]
            exact W1.2.2.2.2 w rfl m hmc hmv
          · exact W2.2.2.2.2 w rfl m hmr hmv
    case neg =>
      have hstep : walkChildren ctx (c :: rest) lc true emp st
          = walkChildren ctx rest lc true emp st := by
        rw [walkChildren_cons, if_neg hg]
      have hX := walkChildrenMain ctx rest lc true emp st hctx hwfr hndsplit.2.1 hlc rfl
        (fun h => by
          have hz := hnone h
          rw [visitedSum_cons_neg c rest hg] at hz
          exact hz)
        (fun w hw => by
          have hB := hanch w hw
          exact ⟨fun hx => hB.notInScope (by
              rw [subtreeList_cons, nodeIds_append]
              exact List.mem_append_right _ hx),
            hB.nlNonneg, hB.fits, hB.stored,
            fun d hd hdv => hB.branchB d (by
              rw [subtreeList_cons]
              exact List.mem_append_right _ hd) hdv⟩)
      rw [hstep]
      refine ⟨?_, ?_, ?_, ?_, ?_⟩
      · intro m hm hmv
        rw [visitedList_cons, if_neg hg, List.nil_append] at hm
        exact hX.1 m hm hmv
      · intro h c' hc' hcv
        rw [childFilter_cons_neg c rest hg] at hc'
        exact hX.2.1 h c' hc' hcv
      · intro h c' hc' p hpath hpv hpl
        rw [childFilter_cons_neg c rest hg] at hc'
        exact hX.2.2.1 h c' hc' p hpath hpv hpl
      · intro h c' hc' w hpath hwleaf d hd hdv
        rw [childFilter_cons_neg c rest hg] at hc'
        exact hX.2.2.2.1 h c' hc' w hpath hwleaf d hd hdv
      · intro w hw m hm hmv
        rw [visitedList_cons, if_neg hg, List.nil_append] at hm
        exact hX.2.2.2.2 w hw m hm hmv
end

/-- Claim C8: after a full solver geometry pass with the zoom focus at the
root of a well-formed tree: (1) every visible visited node's solver
rectangle lies within [0,1]×[0,1] with nonnegative extents; (2) for every
visible uncollapsed parent reached along uncollapsed ancestors, the heights
of its visible visited children sum exactly to its own height (no gap, no
overlap); and (3) every collapsed subtree — rooted at a visible leaf —
contributes exactly one rectangle: each of its visible nodes carries the
same stored rectangle as the collapsed root itself. -/
theorem solver_layout_invariants (ctx : LayoutCtx) (root : OmNode) (st : WalkState)
    (hctx : CtxOK ctx)
    (hwf : ∀ m ∈ subtreeNodes root, NodeWF m)
    (hnd : (nodeIds (subtreeNodes root)).Nodup)
    (hzoom : ctx.zoomedId = root.attrs.id)
    (htot : ctx.totalLeaves = root.attrs.numLeaves) :
    (∀ m ∈ visitedNodes root, m.attrs.isVisible = true →
      ∃ r, storeGet (computeSolverNormalizedPositions ctx root st).solverDims
        m.attrs.id = some r ∧ inBox r)
    ∧ (∀ p, ClearPath root p → p.attrs.isVisible = true →
        p.attrs.isVisibleLeaf = false →
        partitionEq (computeSolverNormalizedPositions ctx root st).solverDims p)
    ∧ (∀ w, ClearPath root w → w.attrs.isVisibleLeaf = true →
        ∀ d ∈ visitedNodes w, d.attrs.isVisible = true →
          storeGet (computeSolverNormalizedPositions ctx root st).solverDims
              d.attrs.id
            = storeGet (computeSolverNormalizedPositions ctx root st).solverDims
              w.attrs.id) := by
  have hicz : ((false : Bool) || (root.attrs.id == ctx.zoomedId)) = true := by
    simp [hzoom]
  have H := walkMain ctx root 0 false none st hctx hwf hnd (le_refl 0) hicz
    (fun _ => by rw [htot]; linarith)
    (fun w hw => nomatch hw)
  exact ⟨H.1, fun p hp => H.2.2.1 rfl p hp, fun w hw => H.2.2.2.1 rfl w hw⟩

theorem exC8Root_wf :
    NodeWF (.mk exC8RootAttrs [.mk exC8LeafA [], .mk exC8LeafB []]) := by
  refine ⟨rfl, by norm_num [exC8RootAttrs, attrs_mk], fun _ => rfl, rfl, rfl,
    ?_, ?_, ?_⟩
  · intro hx
    exact absurd hx (by decide)
  · intro _
    show exC8RootAttrs.numLeaves = visitedSum (OmNode.mk exC8RootAttrs
      [.mk exC8LeafA [], .mk exC8LeafB []]).children
    norm_num [exC8RootAttrs, exC8LeafA, exC8LeafB, visitedSum, childFilter,
      children_mk, attrs_mk, List.filter]
  · intro hx
    exact absurd hx (by decide)

theorem exC8LeafA_wf : NodeWF (.mk exC8LeafA []) := by
  refine ⟨rfl, by norm_num [exC8LeafA, attrs_mk], fun _ => rfl, rfl, rfl,
    ?_, ?_, ?_⟩
  · intro hx
    exact absurd hx (by decide)
  · intro hx
    exact absurd hx (by decide)
  · intro _ d hd hdv
    simp only [subtreeNodes, subtreeList, List.mem_cons, List.not_mem_nil,
      or_false] at hd
    subst hd
    rfl

theorem exC8LeafB_wf : NodeWF (.mk exC8LeafB []) := by
  refine ⟨rfl, by norm_num [exC8LeafB, exC8LeafA, attrs_mk], fun _ => rfl, rfl, rfl,
    ?_, ?_, ?_⟩
  · intro hx
    exact absurd hx (by decide)
  · intro hx
    exact absurd hx (by decide)
  · intro _ d hd hdv
    simp only [subtreeNodes, subtreeList, List.mem_cons, List.not_mem_nil,
      or_false] at hd
    subst hd
    rfl

/-- Closed witness for C8's theorem at the concrete tree. -/
theorem solver_layout_invariants_witness :
    (∀ m ∈ visitedNodes exC8Tree, m.attrs.isVisible = true →
      ∃ r, storeGet (computeSolverNormalizedPositions exC8Ctx exC8Tree
        (initialWalkState [])).solverDims m.attrs.id = some r ∧ inBox r)
    ∧ (∀ p, ClearPath exC8Tree p → p.attrs.isVisible = true →
        p.attrs.isVisibleLeaf = false →
        partitionEq (computeSolverNormalizedPositions exC8Ctx exC8Tree
          (initialWalkState [])).solverDims p)
    ∧ (∀ w, ClearPath exC8Tree w → w.attrs.isVisibleLeaf = true →
        ∀ d ∈ visitedNodes w, d.attrs.isVisible = true →
          storeGet (computeSolverNormalizedPositions exC8Ctx exC8Tree
              (initialWalkState [])).solverDims d.attrs.id
            = storeGet (computeSolverNormalizedPositions exC8Ctx exC8Tree
              (initialWalkState [])).solverDims w.attrs.id) := by
  apply solver_layout_invariants
  · refine ⟨by norm_num [exC8Ctx], by norm_num [exC8Ctx], ?_⟩
    intro c hc
    simp only [exC8Ctx, List.mem_cons, List.not_mem_nil, or_false] at hc
    rcases hc with h | h <;> subst h <;> exact ⟨by norm_num, by norm_num, by norm_num [exC8Ctx]⟩
  · intro m hm
    simp only [exC8Tree, subtreeNodes, subtreeList, List.mem_cons,
      List.not_mem_nil, or_false, List.append_nil, List.nil_append,
      List.cons_append] at hm
    rcases hm with rfl | rfl | rfl
    · exact exC8Root_wf
    · exact exC8LeafA_wf
    · exact exC8LeafB_wf
  · simp only [exC8Tree, subtreeNodes, subtreeList, nodeIds, List.map_cons,
      List.map_nil, List.append_nil, List.nil_append, List.cons_append]
    decide
  · rfl
  · rfl

end OmView
